import Mathlib

/-!
# Shallow embedding of the `crashlog` decode pipeline

Byte buffers are modelled as `List Nat` (each element one byte, values `< 256`
whenever the bytes originate from a real buffer).  Multi-byte integers are
little-endian.  Fallible parsing returns `Option`/`Except`, mirroring the
Rust `Option`/`Result` signatures of the source.
-/

namespace CrashLogProof

/-- Decidable equality for `Except` results (missing from the library). -/
instance {ε α : Type} [DecidableEq ε] [DecidableEq α] : DecidableEq (Except ε α) :=
  fun a b =>
    match a, b with
    | .ok x, .ok y => decidable_of_iff (x = y) (by simp)
    | .error x, .error y => decidable_of_iff (x = y) (by simp)
    | .ok _, .error _ => .isFalse (by simp)
    | .error _, .ok _ => .isFalse (by simp)

/-- `slice.get(a..b)` on a Rust byte slice: `some` of the sub-slice when
`a ≤ b ≤ len`, otherwise `none`. -/
def getSub (s : List Nat) (a b : Nat) : Option (List Nat) :=
  if a ≤ b ∧ b ≤ s.length then some ((s.drop a).take (b - a)) else none

/-- Little-endian value of a byte list (`uN::from_le_bytes`). -/
def leNat : List Nat → Nat
  | [] => 0
  | b :: rest => b + 256 * leNat rest

/-- Read an `n`-byte little-endian unsigned integer at byte offset `off`. -/
def readLE (s : List Nat) (off n : Nat) : Option Nat :=
  (getSub s off (off + n)).map leNat

/-- `u16::to_le_bytes` (with wrap-around, as in Rust `as u16`). -/
def le16Bytes (v : Nat) : List Nat := [v % 256, v / 256 % 256]

/-- `u32::to_le_bytes` (with wrap-around, as in Rust `as u32`). -/
def le32Bytes (v : Nat) : List Nat :=
  [v % 256, v / 256 % 256, v / 2 ^ 16 % 256, v / 2 ^ 24 % 256]

/-- `u64::to_le_bytes`. -/
def le64Bytes (v : Nat) : List Nat :=
  [v % 256, v / 256 % 256, v / 2 ^ 16 % 256, v / 2 ^ 24 % 256,
   v / 2 ^ 32 % 256, v / 2 ^ 40 % 256, v / 2 ^ 48 % 256, v / 2 ^ 56 % 256]

/-- Errors of the crashlog library (`error.rs`), restricted to the variants
reachable from the embedded core. -/
inductive Error where
  | InternalError
  | InvalidCrashLog
  | NoCrashLogFound
  | InvalidBootErrorRecordRegion
  | InvalidHeader
  | EmptyRegion
  | InvalidHeaderType (code : Nat)
  | InvalidRecordType (code : Nat)
  | InvalidProductID (pid : Nat)
  | ParseIntError
  deriving DecidableEq, Repr

/-- Crash Log record-type codes (`header.rs`, module `record_types`). -/
def recordTypePMC : Nat := 0x1
def recordTypePCORE : Nat := 0x4
def recordTypeECORE : Nat := 0x6
def recordTypeBOX : Nat := 0x3D
def recordTypeMCA : Nat := 0x3E

/-- `Version` (`header.rs`): bit-fields of the first little-endian `u32` of a
record. -/
structure Version where
  revision : Nat
  headerType : Nat
  productId : Nat
  recordType : Nat
  consumed : Bool
  cldic : Bool
  deriving DecidableEq, Repr

/-- `Version::from_slice`: `none` both on a termination marker (`0` or
`0xDEADBEEF`) and when fewer than 4 bytes are available. -/
def Version.fromSlice (s : List Nat) : Option Version :=
  match readLE s 0 4 with
  | none => none
  | some version =>
    if version = 0 ∨ version = 0xdeadbeef then none
    else
      some { cldic := (version >>> 30) &&& 1 = 1
             consumed := (version >>> 31) &&& 1 = 1
             revision := version &&& 0xFF
             headerType := (version >>> 8) &&& 0xF
             productId := (version >>> 12) &&& 0xFFF
             recordType := (version >>> 24) &&& 0x3F }

/-- `Version::as_u32`. -/
def Version.asU32 (v : Version) : Nat :=
  ((if v.consumed then 1 else 0) <<< 31)
    ||| ((if v.cldic then 1 else 0) <<< 30)
    ||| (v.recordType <<< 24)
    ||| (v.productId <<< 12)
    ||| (v.headerType <<< 8)
    ||| v.revision

/-- `RecordSize` (`header.rs`). -/
structure RecordSize where
  recordSize : Nat
  extendedRecordSize : Nat
  deriving DecidableEq, Repr

/-- `RecordSize::from_slice`. -/
def RecordSize.fromSlice (s : List Nat) : Option RecordSize :=
  match readLE s 4 2, readLE s 6 2 with
  | some rs, some ers => some ⟨rs, ers⟩
  | _, _ => none

/-- `HeaderType` (`header.rs`): the revision-dependent header extension. -/
inductive HeaderType where
  | type0
  | type1
  | type2 (timestamp agentVersion reason : Nat)
  | type3 (timestamp agentVersion reason completionStatus : Nat)
      (collectionComplete : Bool)
  | type4 (timestamp agentVersion reason whoami misc : Nat)
  | type5 (timestamp agentVersion reason completionStatus : Nat)
      (collectionComplete : Bool) (errorStatus : Nat)
  | type6 (timestamp agentVersion reason dieId socketId completionStatusSize : Nat)
      (completionStatus : List Nat) (collectionComplete : Bool)
  deriving DecidableEq, Repr

namespace HeaderType

/-- `HeaderType::type2_from_slice`. -/
def type2FromSlice (s : List Nat) : Option HeaderType := do
  let timestamp ← readLE s 8 8
  let agentVersion ← readLE s 16 4
  let reason ← readLE s 20 4
  pure (.type2 timestamp agentVersion reason)

/-- `HeaderType::type3_from_slice`. -/
def type3FromSlice (s : List Nat) : Option HeaderType := do
  let timestamp ← readLE s 8 8
  let agentVersion ← readLE s 16 4
  let reason ← readLE s 20 4
  let csData ← readLE s 24 4
  pure (.type3 timestamp agentVersion reason (csData &&& 0x7FFFFFFF)
    (decide ((csData >>> 31) ≠ 0)))

/-- `HeaderType::type4_from_slice`. -/
def type4FromSlice (s : List Nat) : Option HeaderType := do
  let timestamp ← readLE s 8 8
  let agentVersion ← readLE s 16 4
  let reason ← readLE s 20 4
  let whoami ← readLE s 24 4
  let misc ← readLE s 28 4
  pure (.type4 timestamp agentVersion reason whoami misc)

/-- `HeaderType::type5_from_slice`. -/
def type5FromSlice (s : List Nat) : Option HeaderType := do
  let timestamp ← readLE s 8 8
  let agentVersion ← readLE s 16 4
  let reason ← readLE s 20 4
  let csData ← readLE s 24 4
  let errorStatus ← readLE s 28 4
  pure (.type5 timestamp agentVersion reason (csData &&& 0x7FFFFFFF)
    (decide ((csData >>> 31) ≠ 0)) errorStatus)

/-- `HeaderType::type6_from_slice`.  `die_skt_info` is the 4-byte group at
offset 24: `die_id` is byte 0, `socket_id` byte 1, `completion_status_size`
the `u16` at bytes 2..4 masked to 7 bits, `collection_complete` the top bit of
byte 3. -/
def type6FromSlice (s : List Nat) : Option HeaderType := do
  let timestamp ← readLE s 8 8
  let agentVersion ← readLE s 16 4
  let reason ← readLE s 20 4
  match getSub s 24 28 with
  | some [dieId, socketId, cs2, cs3] =>
    let completionStatusSize := (cs2 + 256 * cs3) &&& 0x7F
    let collectionComplete := decide ((cs3 &&& 0x80) ≠ 0)
    let completionStatus ← (List.range completionStatusSize).mapM
      (fun dword => readLE s (28 + dword * 4) 4)
    pure (.type6 timestamp agentVersion reason dieId socketId
      completionStatusSize completionStatus collectionComplete)
  | _ => none

/-- `HeaderType::from_slice`. -/
def fromSlice (headerTypeValue : Nat) (s : List Nat) : Except Error HeaderType :=
  match headerTypeValue with
  | 0 => .ok .type0
  | 1 => .ok .type1
  | 2 => (type2FromSlice s).elim (.error .InvalidHeader) .ok
  | 3 => (type3FromSlice s).elim (.error .InvalidHeader) .ok
  | 4 => (type4FromSlice s).elim (.error .InvalidHeader) .ok
  | 5 => (type5FromSlice s).elim (.error .InvalidHeader) .ok
  | 6 => (type6FromSlice s).elim (.error .InvalidHeader) .ok
  | typeValue => .error (.InvalidHeaderType typeValue)

end HeaderType

/-- `Header` (`header.rs`). -/
structure Header where
  version : Version
  size : RecordSize
  headerType : HeaderType
  deriving DecidableEq, Repr

namespace Header

/-- `Header::from_slice`: `Ok(None)` when `Version::from_slice` reports a
termination marker. -/
def fromSlice (s : List Nat) : Except Error (Option Header) :=
  match Version.fromSlice s with
  | none => .ok none
  | some version =>
    match RecordSize.fromSlice s with
    | none => .error .InvalidHeader
    | some size =>
      match HeaderType.fromSlice version.headerType s with
      | .error e => .error e
      | .ok headerType => .ok (some ⟨version, size, headerType⟩)

/-- `Header::record_size_granularity`. -/
def recordSizeGranularity (h : Header) : Nat :=
  if h.version.recordType = recordTypeECORE then 1
  else if h.version.recordType = recordTypePCORE ∧ h.version.productId < 0x71 then 1
  else 4

/-- `Header::record_size`. -/
def recordSize (h : Header) : Nat :=
  (h.size.recordSize + h.size.extendedRecordSize) * h.recordSizeGranularity

/-- `Header::header_size`. -/
def headerSize (h : Header) : Nat :=
  match h.headerType with
  | .type0 | .type1 => 8
  | .type2 .. => 24
  | .type3 .. => 28
  | .type4 .. => 32
  | .type5 .. => 32
  | .type6 _ _ _ _ _ completionStatusSize _ _ => 28 + completionStatusSize * 4

end Header

/-- `Record` (`record.rs`): a parsed header plus the raw record bytes. -/
structure Record where
  header : Header
  data : List Nat
  deriving DecidableEq, Repr

namespace Record

/-- Loop body of `Record::read_field` (`record/decode.rs`).  `fuel` bounds the
number of iterations; the wrapper passes `size + 1`, which is sufficient
because `bit` strictly increases on every iteration. -/
def readFieldAux (data : List Nat) (offset size : Nat) :
    Nat → Nat → Nat → Option Nat
  | 0, _, value => some value
  | fuel + 1, bit, value =>
    if bit < size then
      let chunk := (offset + bit) / 8
      if chunk < data.length then
        let bitOffset := (offset + bit) % 8
        let mask := (1 <<< min (size - bit) 8) - 1
        readFieldAux data offset size fuel (bit + (8 - bitOffset))
          (value ||| (((data.getD chunk 0 >>> bitOffset) &&& mask) <<< bit))
      else none
    else some value

/-- `Record::read_field`: extract `size` bits at bit offset `offset`. -/
def readField (r : Record) (offset size : Nat) : Option Nat :=
  if 64 < size then none
  else readFieldAux r.data offset size (size + 1) 0 0

/-- The bound-checked part of `Record::payload` (`record.rs`): the Rust code
computes `begin = header_size()`, `end = len` (or `len - 4` when `cldic` is
set, a subtraction that underflows when `len < 4`) and indexes
`data[begin..end]`, which panics unless `begin ≤ end ≤ len`.  `none` models
the panic. -/
def payloadChecked (r : Record) : Option (List Nat) :=
  let b := r.header.headerSize
  if r.header.version.cldic then
    if 4 ≤ r.data.length ∧ b ≤ r.data.length - 4 then
      some ((r.data.drop b).take (r.data.length - 4 - b))
    else none
  else
    if b ≤ r.data.length then some (r.data.drop b) else none

end Record

/-! ## The `Node` register tree (`node.rs`) -/

/-- `NodeType` (`node.rs`). -/
inductive NodeType where
  | root
  | section
  | record
  | field (value : Nat)
  deriving DecidableEq, Repr

/-- ASCII lower-casing of a character (the names handled by the decoder are
ASCII; Rust `str::to_lowercase` agrees with this on ASCII). -/
def asciiToLower (c : Char) : Char :=
  if 'A' ≤ c ∧ c ≤ 'Z' then Char.ofNat (c.toNat + 32) else c

/-- ASCII lower-casing of a string. -/
def lowerStr (s : String) : String := ⟨s.data.map asciiToLower⟩

/-- `Node` (`node.rs`).  The `BTreeMap<String, Node>` of children is modelled
as a list of nodes sorted by name; the map key always equals the child's
`name` field, exactly as produced by `Node::add`. -/
inductive Node where
  | mk (name description : String) (kind : NodeType) (children : List Node)

namespace Node

def name : Node → String
  | mk n _ _ _ => n

def description : Node → String
  | mk _ d _ _ => d

def kind : Node → NodeType
  | mk _ _ k _ => k

def children : Node → List Node
  | mk _ _ _ cs => cs

def withName (n : Node) (s : String) : Node :=
  match n with
  | mk _ d k cs => mk s d k cs

def withDescription (n : Node) (s : String) : Node :=
  match n with
  | mk na _ k cs => mk na s k cs

def withKind (n : Node) (k : NodeType) : Node :=
  match n with
  | mk na d _ cs => mk na d k cs

/-- `Node::root`. -/
def root : Node := mk "" "" .root []

/-- `Node::section` (name is lower-cased). -/
def section' (name : String) : Node := mk (lowerStr name) "" .section []

/-- `Node::record` (name is lower-cased). -/
def record (name : String) : Node := mk (lowerStr name) "" .record []

/-- `Node::field` (name is lower-cased). -/
def field (name : String) (value : Nat) : Node :=
  mk (lowerStr name) "" (.field value) []

/-- Lexicographic order on ASCII strings, matching the Rust `Ord` used by
`BTreeMap<String, _>` on the ASCII names produced by the decoder. -/
def strLt (a b : String) : Bool :=
  go a.data b.data
where
  go : List Char → List Char → Bool
    | [], [] => false
    | [], _ :: _ => true
    | _ :: _, [] => false
    | c :: cs, d :: ds =>
      if c.toNat < d.toNat then true
      else if d.toNat < c.toNat then false
      else go cs ds

/-- Map insertion (`BTreeMap::insert` keyed by `node.name`): keeps the child
list sorted by name, replacing an existing entry with the same name. -/
def insertChild (node : Node) : List Node → List Node
  | [] => [node]
  | c :: cs =>
    if strLt c.name node.name then c :: insertChild node cs
    else if c.name = node.name then node :: cs
    else node :: c :: cs

/-- `Node::get`. -/
def get (n : Node) (name : String) : Option Node :=
  n.children.find? (fun c => c.name = name)

/-- `Node::add`. -/
def add (n : Node) (node : Node) : Node :=
  match n with
  | mk na d k cs => mk na d k (insertChild node cs)

/-- `Node::get_by_path` with the path already split on `.`. -/
def getByPathL (n : Node) : List String → Option Node
  | [] => some n
  | name :: rest =>
    match n.get name with
    | some c => c.getByPathL rest
    | none => none

/-- Split a string on a separator character (used for `.`-paths and for the
`;`-separated CSV rows; `str::split` semantics: splitting the empty string
yields one empty segment). -/
def splitCh (sep : Char) (cs : List Char) : List (List Char) :=
  match cs with
  | [] => [[]]
  | c :: rest =>
    let parts := splitCh sep rest
    if c = sep then [] :: parts
    else
      match parts with
      | p :: ps => (c :: p) :: ps
      | [] => [[c]]

/-- `path.split('.')` as strings. -/
def splitPath (path : String) : List String :=
  (splitCh '.' path.data).map (fun p => ⟨p⟩)

/-- `Node::get_by_path`. -/
def getByPath (n : Node) (path : String) : Option Node :=
  n.getByPathL (splitPath path)

/-- `Node::create_hierarchy` / `create_hierarchy_from_iter` followed by a
mutation of the returned `&mut Node`: walk `path`, creating a `Section` node
for every missing component, and apply `f` to the final node. -/
def createModify (n : Node) (path : List String) (f : Node → Node) : Node :=
  match path with
  | [] => f n
  | name :: rest =>
    match n.get name with
    | some c => n.add (c.createModify rest f)
    | none => n.add ((section' name).createModify rest f)

/-- Decimal digits of a natural number (auxiliary, fuel-driven). -/
def natDigits : Nat → Nat → List Char
  | 0, _ => []
  | fuel + 1, n =>
    if n < 10 then [Char.ofNat (48 + n)]
    else natDigits fuel (n / 10) ++ [Char.ofNat (48 + n % 10)]

/-- Decimal rendering of a natural number (Rust `format!("{}", n)`). -/
def natToStr (n : Nat) : String := ⟨natDigits (n + 1) n⟩

/-- Search loop of `Node::merge_instance`: the smallest suffix that makes the
incoming name free.  `fuel` bounds the probing; the caller passes one more
than the number of children, which suffices because all probed names are
distinct. -/
def freshNameAux (cs : List Node) (base : String) : Nat → Nat → String → String
  | 0, _, current => current
  | fuel + 1, instance', current =>
    if (cs.find? (fun c => c.name = current)).isSome then
      freshNameAux cs base fuel (instance' + 1) (base ++ natToStr instance')
    else current

/-- The name under which `Node::merge_instance` inserts `other`. -/
def freshName (cs : List Node) (base : String) : String :=
  freshNameAux cs base (cs.length + 2) 0 base

/-- `Node::merge_instance`. -/
def mergeInstance (self other : Node) : Node :=
  self.add (other.withName (freshName self.children other.name))

mutual

/-- `Node::merge`. -/
def merge : Node → Node → Node
  | self, .mk _ _ _ cs => mergeChildren self cs

/-- The `for (_, child) in other.children` loop of `Node::merge`, iterating
in ascending name order (matching `BTreeMap` iteration): adopt a child whose
name is free, instance-split when the existing child is a Record or Field,
and merge recursively otherwise. -/
def mergeChildren : Node → List Node → Node
  | self, [] => self
  | self, child :: rest =>
    let self' :=
      match self.get child.name with
      | some selfChild =>
        match selfChild.kind with
        | .record | .field _ => self.mergeInstance child
        | _ => self.add (merge selfChild child)
      | none => self.add child
    mergeChildren self' rest

end

end Node

/-! ## Schema-driven decode (`record/decode.rs`) -/

/-- `Header::get_root_path`: Type6 headers decode under
`processors.cpu{socket_id}.die{die_id}`. -/
def Header.getRootPath (h : Header) : Option String :=
  match h.headerType with
  | .type6 _ _ _ dieId socketId _ _ _ =>
    some ("processors.cpu" ++ Node.natToStr socketId ++ ".die" ++ Node.natToStr dieId)
  | _ => none

/-- `DecodeDefinitionEntry` (`record/decode.rs`). -/
structure DecodeDefinitionEntry where
  name : String := ""
  offset : Nat := 0
  size : Nat := 0
  description : String := ""
  deriving DecidableEq, Repr

/-- Decimal digit parsing of `usize::from_str` (an optional leading `+`
followed by one or more ASCII digits). -/
def parseUsize (cs : List Char) : Option Nat :=
  match cs with
  | '+' :: rest => digitsOnly rest
  | _ => digitsOnly cs
where
  digitsOnly : List Char → Option Nat
    | [] => none
    | cs => go cs 0
  go : List Char → Nat → Option Nat
    | [], acc => some acc
    | c :: rest, acc =>
      if '0' ≤ c ∧ c ≤ '9' then go rest (acc * 10 + (c.toNat - 48))
      else none

/-- `str::lines`: split on `\n`, with no trailing empty line (the decode
definitions in play contain no carriage returns). -/
def strLines (cs : List Char) : List (List Char) :=
  let parts := Node.splitCh '\n' cs
  match parts.getLast? with
  | some [] => parts.dropLast
  | _ => parts

/-- The per-line field loop of `Record::decode_with_csv`: dispatch each
`;`-separated field to the schema column with the same index. -/
def applyRowFields (columns : List String) :
    Nat → List (List Char) → DecodeDefinitionEntry →
    Except Error DecodeDefinitionEntry
  | _, [], entry => .ok entry
  | i, f :: fs, entry =>
    match columns.get? i with
    | some column =>
      if column = "name" then
        applyRowFields columns (i + 1) fs { entry with name := ⟨f⟩ }
      else if column = "offset" then
        match parseUsize f with
        | some v => applyRowFields columns (i + 1) fs { entry with offset := v }
        | none => .error .ParseIntError
      else if column = "size" then
        match parseUsize f with
        | some v => applyRowFields columns (i + 1) fs { entry with size := v }
        | none => .error .ParseIntError
      else if column = "description" then
        applyRowFields columns (i + 1) fs { entry with description := ⟨f⟩ }
      else applyRowFields columns (i + 1) fs entry
    | none => applyRowFields columns (i + 1) fs entry

/-- Resolve the leading-dot relative-path rule of `Record::decode_with_csv`:
after the first segment has been examined, every further empty segment pops
one level, every non-empty segment is appended. -/
def resolveSegments (currentPath : List String) : List String → List String
  | [] => currentPath
  | seg :: rest =>
    if seg = "" then resolveSegments currentPath.dropLast rest
    else resolveSegments (currentPath ++ [seg]) rest

/-- One data row of `Record::decode_with_csv` (everything after the
`entry.name.is_empty()` check). -/
def decodeRow (rec : Record) (offset : Nat) (rootPath : List String)
    (entry : DecodeDefinitionEntry) (currentPath : List String) (root : Node) :
    List String × Node :=
  match Node.splitPath entry.name with
  | [] => (currentPath, root)
  | top :: segments =>
    let (path1, root1) :=
      if top ≠ "" then
        let root' :=
          if ((root.getByPathL rootPath).bind (fun rr => rr.get top)).isNone then
            root.createModify rootPath (fun rr => rr.add (Node.record top))
          else root
        ([top], root')
      else (currentPath, root)
    let path2 := resolveSegments path1 segments
    let value := rec.readField (offset * 8 + entry.offset) entry.size
    let root2 := root1.createModify (rootPath ++ path2) (fun node =>
      let node := node.withDescription entry.description
      match value with
      | some v => node.withKind (.field v)
      | none => node)
    (path2, root2)

/-- The data-row loop of `Record::decode_with_csv`. -/
def decodeRows (rec : Record) (offset : Nat) (rootPath : List String)
    (columns : List String) :
    List (List Char) → List String → Node → Except Error Node
  | [], _, root => .ok root
  | line :: rest, currentPath, root => do
    let entry ← applyRowFields columns 0 (Node.splitCh ';' line) {}
    if entry.name = "" then decodeRows rec offset rootPath columns rest currentPath root
    else
      let (currentPath', root') := decodeRow rec offset rootPath entry currentPath root
      decodeRows rec offset rootPath columns rest currentPath' root'

/-- `Record::decode_with_csv`: decode a section of the record at byte offset
`offset` using a `;`-separated decode definition. -/
def Record.decodeWithCsv (rec : Record) (layout : String) (offset : Nat) :
    Except Error Node :=
  let rootPath : List String :=
    match rec.header.getRootPath with
    | some p => Node.splitPath p
    | none => []
  let root := Node.root.createModify rootPath id
  match strLines layout.data with
  | [] => .ok root
  | columnsLine :: rows =>
    let columns := (Node.splitCh ';' columnsLine).map (fun f => (⟨f⟩ : String))
    decodeRows rec offset rootPath columns rows [] root

/-! ## Region parsing (`region.rs`) -/

/-- A Crash Log region: a contiguous sequence of records. -/
structure Region where
  records : List Record
  deriving DecidableEq, Repr

/-- The header-parse-and-advance loop of `Region::from_slice`.  `fuel` bounds
the iteration count; the wrapper passes `bytes.length + 1`, sufficient since
the cursor strictly increases. -/
def regionLoop (bytes : List Nat) : Nat → Nat → List Record → Except Error (List Record)
  | 0, _, acc => .ok acc
  | fuel + 1, cursor, acc =>
    if cursor < bytes.length then
      match Header.fromSlice (bytes.drop cursor) with
      | .error err => if acc.isEmpty then .error err else .ok acc
      | .ok none => .ok acc
      | .ok (some header) =>
        let recordSize := header.recordSize
        if recordSize = 0 then .ok acc
        else
          let limit := cursor + recordSize
          let data := (bytes.drop cursor).take (min limit bytes.length - cursor)
          regionLoop bytes fuel (cursor + recordSize) (acc ++ [⟨header, data⟩])
    else .ok acc

/-- `Region::from_slice`. -/
def Region.fromSlice (bytes : List Nat) : Except Error Region :=
  (regionLoop bytes (bytes.length + 1) 0 []).map Region.mk

/-- `Region::to_bytes`: concatenation of the raw record buffers. -/
def Region.toBytes (r : Region) : List Nat :=
  (r.records.map Record.data).flatten

/-! ## BERT / BERR / CPER containers (`bert.rs`, `bert/berr.rs`, `cper.rs`,
`cper/fer.rs`) -/

/-- Byte representation of `FW_ERROR_RECORD_GUID`
(`81212a96-09ed-4996-9471-8d729c8e69ed`, mixed-endian GUID layout). -/
def fwErrorRecordGuid : List Nat :=
  [0x96, 0x2a, 0x21, 0x81, 0xed, 0x09, 0x96, 0x49,
   0x94, 0x71, 0x8d, 0x72, 0x9c, 0x8e, 0x69, 0xed]

/-- Byte representation of `RECORD_ID_CRASHLOG`
(`8f87f311-c998-4d9e-a0c4-6065518c4f6d`). -/
def recordIdCrashlog : List Nat :=
  [0x11, 0xf3, 0x87, 0x8f, 0x98, 0xc9, 0x9e, 0x4d,
   0xa0, 0xc4, 0x60, 0x65, 0x51, 0x8c, 0x4f, 0x6d]

/-- `Guid::ZERO`. -/
def zeroGuid : List Nat := List.replicate 16 0

/-- `FirmwareErrorRecordHeader` (`cper/fer.rs`). -/
structure FirmwareErrorRecordHeader where
  errorType : Nat
  revision : Nat
  reserved : List Nat
  recordIdentifier : Nat
  guid : List Nat
  deriving DecidableEq, Repr

namespace FirmwareErrorRecordHeader

/-- `FirmwareErrorRecordHeader::from_slice`. -/
def fromSlice (s : List Nat) : Option FirmwareErrorRecordHeader := do
  let revision ← readLE s 1 1
  let errorType ← readLE s 0 1
  let reserved ← getSub s 2 8
  let recordIdentifier ← readLE s 8 8
  let guid ← if 2 ≤ revision then getSub s 16 32 else pure zeroGuid
  pure ⟨errorType, revision, reserved, recordIdentifier, guid⟩

/-- `FirmwareErrorRecordHeader::size`. -/
def size (h : FirmwareErrorRecordHeader) : Nat :=
  if 2 ≤ h.revision then 32 else 16

/-- `FirmwareErrorRecordHeader::to_bytes`. -/
def toBytes (h : FirmwareErrorRecordHeader) : List Nat :=
  [h.errorType % 256, h.revision % 256] ++ h.reserved
    ++ le64Bytes h.recordIdentifier ++ h.guid

end FirmwareErrorRecordHeader

/-- `FirmwareErrorRecord` (`cper/fer.rs`). -/
structure FirmwareErrorRecord where
  header : FirmwareErrorRecordHeader
  payload : List Nat
  deriving DecidableEq, Repr

namespace FirmwareErrorRecord

/-- `FirmwareErrorRecord::from_slice`. -/
def fromSlice (s : List Nat) : Option FirmwareErrorRecord := do
  let header ← FirmwareErrorRecordHeader.fromSlice s
  let payload ← getSub s header.size s.length
  pure ⟨header, payload⟩

/-- `FirmwareErrorRecord::to_bytes`. -/
def toBytes (r : FirmwareErrorRecord) : List Nat :=
  r.header.toBytes ++ r.payload

end FirmwareErrorRecord

/-- `CperSection` (`cper.rs`). -/
inductive CperSection where
  | firmwareErrorRecord (fer : FirmwareErrorRecord)
  | unknown (data : List Nat)
  deriving DecidableEq, Repr

namespace CperSection

/-- `CperSection::from_slice`. -/
def fromSlice (guid : List Nat) (s : List Nat) : Option CperSection :=
  if guid = fwErrorRecordGuid then
    (FirmwareErrorRecord.fromSlice s).map .firmwareErrorRecord
  else some (.unknown s)

/-- `CperSection::to_bytes`. -/
def toBytes : CperSection → List Nat
  | .firmwareErrorRecord fer => fer.toBytes
  | .unknown data => data

end CperSection

/-- `Region::from_cper_section`. -/
def Region.fromCperSection : CperSection → Option Region
  | .firmwareErrorRecord fer =>
    if fer.header.guid = recordIdCrashlog then (Region.fromSlice fer.payload).toOption
    else none
  | _ => none

/-- `GenericErrorStatusBlock` (`bert/berr.rs`). -/
structure GenericErrorStatusBlock where
  blockStatus : Nat := 0
  rawDataOffset : Nat := 0
  rawDataLength : Nat := 0
  dataLength : Nat := 0
  errorSeverity : Nat := 0
  deriving DecidableEq, Repr

namespace GenericErrorStatusBlock

/-- `GenericErrorStatusBlock::from_slice`. -/
def fromSlice (s : List Nat) : Option GenericErrorStatusBlock := do
  let blockStatus ← readLE s 0 4
  let rawDataOffset ← readLE s 4 4
  let rawDataLength ← readLE s 8 4
  let dataLength ← readLE s 12 4
  let errorSeverity ← readLE s 16 4
  pure ⟨blockStatus, rawDataOffset, rawDataLength, dataLength, errorSeverity⟩

/-- `GenericErrorStatusBlock::to_bytes`. -/
def toBytes (h : GenericErrorStatusBlock) : List Nat :=
  le32Bytes h.blockStatus ++ le32Bytes h.rawDataOffset
    ++ le32Bytes h.rawDataLength ++ le32Bytes h.dataLength
    ++ le32Bytes h.errorSeverity

/-- `GenericErrorStatusBlock::size` (`mem::size_of`, packed: 20 bytes). -/
def size (_ : GenericErrorStatusBlock) : Nat := 20

end GenericErrorStatusBlock

/-- `GenericErrorDataEntryHeader` (`bert/berr.rs`). -/
structure GenericErrorDataEntryHeader where
  sectionGuid : List Nat
  errorSeverity : Nat := 0
  revision : Nat := 0
  validationBits : Nat := 0
  flags : Nat := 0
  errorDataLength : Nat := 0
  fruId : List Nat := List.replicate 16 0
  fruText : List Nat := List.replicate 20 0
  timestamp : Nat := 0
  deriving DecidableEq, Repr

namespace GenericErrorDataEntryHeader

/-- `GenericErrorDataEntryHeader::from_slice`. -/
def fromSlice (s : List Nat) : Option GenericErrorDataEntryHeader := do
  let revision ← readLE s 20 2
  let sectionGuid ← getSub s 0 16
  let errorSeverity ← readLE s 16 4
  let validationBits ← readLE s 22 1
  let flags ← readLE s 23 1
  let errorDataLength ← readLE s 24 4
  let fruId ← getSub s 28 44
  let fruText ← getSub s 44 64
  let timestamp ← if 0x300 ≤ revision then readLE s 64 8 else pure 0
  pure ⟨sectionGuid, errorSeverity, revision, validationBits, flags,
    errorDataLength, fruId, fruText, timestamp⟩

/-- `GenericErrorDataEntryHeader::size` (72 bytes from revision 0x300 on,
64 before). -/
def size (h : GenericErrorDataEntryHeader) : Nat :=
  if 0x300 ≤ h.revision then 72 else 64

/-- `GenericErrorDataEntryHeader::to_bytes`. -/
def toBytes (h : GenericErrorDataEntryHeader) : List Nat :=
  h.sectionGuid ++ le32Bytes h.errorSeverity ++ le16Bytes h.revision
    ++ [h.validationBits % 256, h.flags % 256] ++ le32Bytes h.errorDataLength
    ++ h.fruId ++ h.fruText
    ++ (if 0x300 ≤ h.revision then le64Bytes h.timestamp else [])

end GenericErrorDataEntryHeader

/-- `GenericErrorDataEntry` (`bert/berr.rs`). -/
structure GenericErrorDataEntry where
  header : GenericErrorDataEntryHeader
  cperSection : CperSection
  deriving DecidableEq, Repr

namespace GenericErrorDataEntry

/-- `GenericErrorDataEntry::from_slice`. -/
def fromSlice (s : List Nat) : Option GenericErrorDataEntry := do
  let header ← GenericErrorDataEntryHeader.fromSlice s
  let sectionBytes ← getSub s header.size (header.size + header.errorDataLength)
  let cperSection ← CperSection.fromSlice header.sectionGuid sectionBytes
  pure ⟨header, cperSection⟩

/-- `GenericErrorDataEntry::size`. -/
def size (e : GenericErrorDataEntry) : Nat :=
  e.header.size + e.header.errorDataLength

/-- `GenericErrorDataEntry::to_bytes` (re-computes `error_data_length` from
the serialized CPER section). -/
def toBytes (e : GenericErrorDataEntry) : List Nat :=
  let cperSection := e.cperSection.toBytes
  let header := { e.header with errorDataLength := cperSection.length }
  header.toBytes ++ cperSection

end GenericErrorDataEntry

/-- `Berr` (`bert/berr.rs`). -/
structure Berr where
  header : GenericErrorStatusBlock
  entries : List GenericErrorDataEntry
  deriving DecidableEq, Repr

namespace Berr

/-- The `while let` entry loop of `Berr::from_slice`.  `fuel` bounds the
iterations; the wrapper passes `s.length + 1`, sufficient since every entry
occupies at least 64 bytes. -/
def entriesLoop (s : List Nat) (e : Nat) :
    Nat → Nat → List GenericErrorDataEntry → Option (List GenericErrorDataEntry)
  | 0, _, acc => some acc
  | fuel + 1, ptr, acc => do
    let window ← getSub s ptr e
    match GenericErrorDataEntry.fromSlice window with
    | none => some acc
    | some entry =>
      let ptr' := ptr + entry.size
      if e ≤ ptr' then some (acc ++ [entry])
      else entriesLoop s e fuel ptr' (acc ++ [entry])

/-- `Berr::from_slice`. -/
def fromSlice (s : List Nat) : Option Berr := do
  let header ← GenericErrorStatusBlock.fromSlice s
  let entries ← entriesLoop s (header.size + header.dataLength) (s.length + 1)
    header.size []
  pure ⟨header, entries⟩

/-- `Berr::from_bert_file`: strip a leading `BERR` magic or a 48-byte packed
`Bert` ACPI table header. -/
def fromBertFile (s : List Nat) : Option Berr :=
  if s.take 4 = [0x42, 0x45, 0x52, 0x52] then
    (getSub s 4 s.length).bind fromSlice
  else if s.take 4 = [0x42, 0x45, 0x52, 0x54] then
    (getSub s 48 s.length).bind fromSlice
  else none

/-- `Berr::to_bytes` (re-computes `data_length` as the sum of the serialized
entry lengths). -/
def toBytes (b : Berr) : List Nat :=
  let payload := (b.entries.map GenericErrorDataEntry.toBytes).flatten
  let header := { b.header with dataLength := payload.length }
  header.toBytes ++ payload

end Berr

/-- `Bert::dummy().to_bytes()` with the given `region_length`
(`bert.rs`): magic, zeroed SDT header fields, `region_length`, zero region
pointer — 48 bytes. -/
def bertDummyBytes (regionLength : Nat) : List Nat :=
  [0x42, 0x45, 0x52, 0x54] ++ le32Bytes 0 ++ [0, 0]
    ++ List.replicate 6 0 ++ List.replicate 8 0
    ++ le32Bytes 0 ++ le32Bytes 0 ++ le32Bytes 0
    ++ le32Bytes regionLength ++ le64Bytes 0

/-! ### CPER record container (`cper.rs`) -/

/-- `CperSectionDescriptor` (`cper.rs`). -/
structure CperSectionDescriptor where
  sectionOffset : Nat
  sectionLength : Nat
  revisionMinor : Nat
  revisionMajor : Nat
  validationBits : Nat
  reserved : Nat
  flags : Nat
  sectionType : List Nat
  fruId : List Nat
  sectionSeverity : Nat
  fruText : List Nat
  deriving DecidableEq, Repr

/-- `CperSectionDescriptor::from_slice`. -/
def CperSectionDescriptor.fromSlice (s : List Nat) : Option CperSectionDescriptor := do
  let sectionOffset ← readLE s 0 4
  let sectionLength ← readLE s 4 4
  let revisionMinor ← readLE s 8 1
  let revisionMajor ← readLE s 9 1
  let validationBits ← readLE s 10 1
  let reserved ← readLE s 11 1
  let flags ← readLE s 12 4
  let sectionType ← getSub s 16 32
  let fruId ← getSub s 32 48
  let sectionSeverity ← readLE s 48 4
  let fruText ← getSub s 52 72
  pure ⟨sectionOffset, sectionLength, revisionMinor, revisionMajor,
    validationBits, reserved, flags, sectionType, fruId, sectionSeverity, fruText⟩

/-- `Section` (`cper.rs`); the Rust field `section` is rendered `section'`
because `section` is a Lean keyword. -/
structure CperFileSection where
  descriptor : CperSectionDescriptor
  section' : CperSection
  deriving DecidableEq, Repr

/-- `CperHeader` (`cper.rs`), which must start with the `CPER` magic. -/
structure CperHeader where
  signatureStart : Nat
  revisionMinor : Nat
  revisionMajor : Nat
  signatureEnd : Nat
  sectionCount : Nat
  errorSeverity : Nat
  validationBits : Nat
  recordLength : Nat
  timestamp : Nat
  platformId : List Nat
  partitionId : List Nat
  creatorId : List Nat
  notificationType : List Nat
  recordId : Nat
  flags : Nat
  persistenceInformation : Nat
  reserved : List Nat
  deriving DecidableEq, Repr

/-- First half of the field reads of `CperHeader::from_slice`. -/
def cperHeaderFieldsA (s : List Nat) :
    Option (Nat × Nat × Nat × Nat × Nat × Nat × Nat × Nat × Nat) := do
  let signatureStart ← readLE s 0 4
  let revisionMinor ← readLE s 4 1
  let revisionMajor ← readLE s 5 1
  let signatureEnd ← readLE s 6 4
  let sectionCount ← readLE s 10 2
  let errorSeverity ← readLE s 12 4
  let validationBits ← readLE s 16 4
  let recordLength ← readLE s 20 4
  let timestamp ← readLE s 24 8
  pure (signatureStart, revisionMinor, revisionMajor, signatureEnd,
    sectionCount, errorSeverity, validationBits, recordLength, timestamp)

/-- Second half of the field reads of `CperHeader::from_slice`. -/
def cperHeaderFieldsB (s : List Nat) :
    Option (List Nat × List Nat × List Nat × List Nat × Nat × Nat × Nat × List Nat) := do
  let platformId ← getSub s 32 48
  let partitionId ← getSub s 48 64
  let creatorId ← getSub s 64 80
  let notificationType ← getSub s 80 96
  let recordId ← readLE s 96 8
  let flags ← readLE s 104 4
  let persistenceInformation ← readLE s 108 8
  let reserved ← getSub s 116 128
  pure (platformId, partitionId, creatorId, notificationType, recordId,
    flags, persistenceInformation, reserved)

/-- `CperHeader::from_slice`. -/
def CperHeader.fromSlice (s : List Nat) : Option CperHeader :=
  if s.take 4 = [0x43, 0x50, 0x45, 0x52] then do
    let (signatureStart, revisionMinor, revisionMajor, signatureEnd,
      sectionCount, errorSeverity, validationBits, recordLength, timestamp)
      ← cperHeaderFieldsA s
    let (platformId, partitionId, creatorId, notificationType, recordId,
      flags, persistenceInformation, reserved) ← cperHeaderFieldsB s
    pure (CperHeader.mk signatureStart revisionMinor revisionMajor signatureEnd
      sectionCount errorSeverity validationBits recordLength timestamp
      platformId partitionId creatorId notificationType recordId flags
      persistenceInformation reserved)
  else none

/-- `Cper` (`cper.rs`). -/
structure Cper where
  recordHeader : CperHeader
  sections : List CperFileSection
  deriving DecidableEq, Repr

/-- `Cper::from_slice` (record header size 128, section descriptor size 72). -/
def Cper.fromSlice (slice : List Nat) : Option Cper := do
  let recordHeader ← (getSub slice 0 128).bind CperHeader.fromSlice
  let sections ← (List.range recordHeader.sectionCount).mapM (fun i => do
    let index := 128 + i * 72
    let descriptor ← (getSub slice index slice.length).bind
      CperSectionDescriptor.fromSlice
    let offset := descriptor.sectionOffset
    let endOffset := offset + descriptor.sectionLength
    let sectionBytes ← getSub slice offset endOffset
    let sec ← CperSection.fromSlice descriptor.sectionType sectionBytes
    pure (⟨descriptor, sec⟩ : CperFileSection))
  pure ⟨recordHeader, sections⟩

/-! ## CrashLog assembly (`crashlog.rs`) -/

/-- `CrashLog` (the `metadata` field is informational only and not modelled). -/
structure CrashLog where
  regions : List Region
  deriving DecidableEq, Repr

namespace CrashLog

/-- The nested regions discovered in the Box records of one region
(`CrashLog::from_regions` inner loop), in record order. -/
def boxRegions (region : Region) : List Region :=
  region.records.filterMap (fun record =>
    if record.header.version.recordType = recordTypeBOX then
      match getSub record.data record.header.headerSize record.data.length with
      | none => none
      | some payload => (Region.fromSlice payload).toOption
    else none)

/-- The queue loop of `CrashLog::from_regions`.  Regions discovered inside
Box records are pushed to the front of the queue one by one, so they end up
in front in reverse discovery order.  `fuel` bounds the iterations; the
wrapper passes a bound that is sufficient because every nested region comes
from a strictly smaller payload. -/
def fromRegionsAux : Nat → List Region → List Region → List Region
  | 0, _, acc => acc
  | _ + 1, [], acc => acc
  | fuel + 1, region :: queue, acc =>
    fromRegionsAux fuel ((boxRegions region).reverse ++ queue) (acc ++ [region])

/-- Fuel bound for `fromRegionsAux`: generous in the queue length and the
total byte count of the queued regions. -/
def fromRegionsFuel (regions : List Region) : Nat :=
  regions.length + 2 * (regions.map (fun r =>
    (r.records.map (fun rec => rec.data.length + 1)).sum + 1)).sum + 1

/-- `CrashLog::from_regions`. -/
def fromRegions (regions : List Region) : Except Error CrashLog :=
  let out := fromRegionsAux (fromRegionsFuel regions) regions []
  if out.isEmpty then .error .InvalidCrashLog else .ok ⟨out⟩

/-- `CrashLog::from_berr`. -/
def fromBerr (berr : Berr) : Except Error CrashLog :=
  fromRegions (berr.entries.filterMap
    (fun entry => Region.fromCperSection entry.cperSection))

/-- `CrashLog::from_cper`. -/
def fromCper (cper : Cper) : Except Error CrashLog :=
  let regions := cper.sections.filterMap
    (fun s => Region.fromCperSection s.section')
  if regions.isEmpty then .error .NoCrashLogFound
  else fromRegions regions

/-- `CrashLog::from_slice`: content-sniffing union of BERT/BERR, CPER, and
bare region. -/
def fromSlice (s : List Nat) : Except Error CrashLog :=
  match Berr.fromBertFile s with
  | some berr => fromBerr berr
  | none =>
    match Cper.fromSlice s with
    | some cper => fromCper cper
    | none => do
      let region ← Region.fromSlice s
      fromRegions [region]

/-- `Berr::from_crashlog`. -/
def toBerr (crashlog : CrashLog) : Berr :=
  { header := {}
    entries := crashlog.regions.map (fun region =>
      { header := { sectionGuid := fwErrorRecordGuid, revision := 0x300 }
        cperSection := .firmwareErrorRecord
          { header := { errorType := 2, revision := 2,
                        reserved := List.replicate 6 0,
                        recordIdentifier := 0, guid := recordIdCrashlog }
            payload := region.toBytes } }) }

/-- `CrashLog::to_bytes`: a dummy BERT table header followed by the BERR
payload. -/
def toBytes (crashlog : CrashLog) : List Nat :=
  let berr := (toBerr crashlog).toBytes
  bertDummyBytes berr.length ++ berr

end CrashLog

/-! ## Serialized-entry shapes used in the round-trip analysis -/

/-- The serialized 72-byte revision-0x300 entry header that
`Berr::from_crashlog` produces for a region payload `p`. -/
def entryPrefixBytes (p : List Nat) : List Nat :=
  fwErrorRecordGuid ++ le32Bytes 0 ++ le16Bytes 0x300 ++ [0, 0]
    ++ le32Bytes (32 + p.length) ++ List.replicate 16 0 ++ List.replicate 20 0
    ++ le64Bytes 0

/-- The serialized revision-2 Firmware Error Record (32-byte header plus
payload) that `Berr::from_crashlog` wraps around a region payload `p`. -/
def ferBytesFor (p : List Nat) : List Nat :=
  [2, 2] ++ List.replicate 6 0 ++ le64Bytes 0 ++ recordIdCrashlog ++ p

/-- The byte string `GenericErrorDataEntry::to_bytes` produces for the entry
that `Berr::from_crashlog` builds around a region payload `p`. -/
def entryBytesFor (p : List Nat) : List Nat :=
  entryPrefixBytes p ++ ferBytesFor p

/-- The `GenericErrorDataEntry` value obtained when re-parsing
`entryBytesFor p` (it differs from the entry built by `Berr::from_crashlog`
only in the recomputed `error_data_length`). -/
def entryParsed (p : List Nat) : GenericErrorDataEntry :=
  { header := { sectionGuid := fwErrorRecordGuid, revision := 0x300,
                errorDataLength := 32 + p.length }
    cperSection := .firmwareErrorRecord
      { header := { errorType := 2, revision := 2,
                    reserved := List.replicate 6 0,
                    recordIdentifier := 0, guid := recordIdCrashlog }
        payload := p } }

/-! ## Concrete test vectors -/

/-- The 16-byte buffer `[0x80, 0x81, ..., 0x8F]` of §8.5/§8.6 of the spec. -/
def buf16 : List Nat :=
  [0x80, 0x81, 0x82, 0x83, 0x84, 0x85, 0x86, 0x87,
   0x88, 0x89, 0x8A, 0x8B, 0x8C, 0x8D, 0x8E, 0x8F]

/-- `Header::default()`: default `Version` and `RecordSize` (all zero), and
the default `HeaderType` (`Type1`). -/
def defaultHeader : Header := ⟨⟨0, 0, 0, 0, false, false⟩, ⟨0, 0⟩, .type1⟩

/-- A record over `buf16` with a default header. -/
def rec16 : Record := ⟨defaultHeader, buf16⟩

/-- The schema rows of §8.6. -/
def csvRows : String :=
  "name;offset;size;description\nfoo;0;128\n.aaa;8;8\n..bbb;16;8\n...ccc;24;8"

/-- A well-formed 8-byte ECORE record: revision 1, header type 1, record
type ECORE (granularity 1), record-size field 8 — so the record is exactly
its 8 header bytes. -/
def ecoreRec8 : List Nat := [0x01, 0x01, 0x00, 0x06, 0x08, 0x00, 0x00, 0x00]

/-- An ECORE record whose record-size field is 5: the computed record size
(5 bytes) is smaller than the 8-byte header that was parsed for it. -/
def ecoreShort : List Nat := [0x01, 0x01, 0x00, 0x06, 0x05, 0x00, 0x00, 0x00]

/-- The header parsed from `ecoreRec8`. -/
def ecoreRec8Header : Header :=
  ⟨⟨1, 1, 0, recordTypeECORE, false, false⟩, ⟨8, 0⟩, .type1⟩

/-- The header parsed from `ecoreShort`. -/
def ecoreShortHeader : Header :=
  ⟨⟨1, 1, 0, recordTypeECORE, false, false⟩, ⟨5, 0⟩, .type1⟩

/-- A single-region, single-record CrashLog whose record is `ecoreRec8`. -/
def goodCrashLog : CrashLog := ⟨[⟨[⟨ecoreRec8Header, ecoreRec8⟩]⟩]⟩

/-- A pseudo-CrashLog used only to build a BERT blob whose region payload is
the 8 bytes of `ecoreShort`. -/
def shortPayloadCrashLog : CrashLog := ⟨[⟨[⟨ecoreShortHeader, ecoreShort⟩]⟩]⟩

/-- A 16-byte BOX record (header type 1, record type BOX, granularity 4,
record-size field 4): 8 header bytes followed by a payload that is itself a
valid region holding `ecoreRec8`. -/
def boxRecordBytes : List Nat :=
  [0x01, 0x01, 0x00, 0x3D, 0x04, 0x00, 0x00, 0x00] ++ ecoreRec8

/-- The header parsed from `boxRecordBytes`. -/
def boxHeader : Header :=
  ⟨⟨1, 1, 0, recordTypeBOX, false, false⟩, ⟨4, 0⟩, .type1⟩

/-- A pseudo-CrashLog used only to build a BERT blob whose region payload is
`boxRecordBytes`. -/
def boxPayloadCrashLog : CrashLog := ⟨[⟨[⟨boxHeader, boxRecordBytes⟩]⟩]⟩

/-- A region holding one MCA record with a type-2 header: the record-size
field 2 gives a record of 8 bytes (granularity 4), smaller than the 24-byte
type-2 header.  The trailing 4 zero bytes are a termination marker. -/
def mcaType2RegionBytes : List Nat :=
  le32Bytes 0x3E000201 ++ [0x02, 0x00, 0x00, 0x00]
    ++ List.replicate 16 0xAA ++ List.replicate 4 0

/-- A region holding one ECORE record with the `cldic` bit set and a record
size of 2 bytes — fewer than the 4 bytes the checksum needs. -/
def cldicShortRegionBytes : List Nat :=
  le32Bytes (0x06000101 + (1 <<< 30)) ++ [0x02, 0x00, 0x00, 0x00]

/-- A record slice with a type-6 header: revision 1, header type 6, PMC
record type; `die_skt_info` is `[0x08, 0x00, 0x03, 0x80]` (die 8, socket 0,
3 completion-status dwords, collection complete), followed by the 12
completion-status bytes. -/
def t6bytes : List Nat :=
  le32Bytes 0x01000601 ++ [0x10, 0x00, 0x00, 0x00] ++ List.replicate 16 0
    ++ [0x08, 0x00, 0x03, 0x80] ++ List.replicate 12 0xCC

/-- The header parsed from `t6bytes`. -/
def t6Header : Header :=
  ⟨⟨1, 6, 0, 1, false, false⟩, ⟨0x10, 0⟩,
   .type6 0 0 0 8 0 3 [0xCCCCCCCC, 0xCCCCCCCC, 0xCCCCCCCC] true⟩

/-- A region whose first record has computed size 0 (record-size fields all
zero), followed by unreachable garbage. -/
def zeroSizeRegionBytes : List Nat :=
  [0x01, 0x01, 0x00, 0x06, 0x00, 0x00, 0x00, 0x00, 1, 2, 3]

/-- An 8-byte buffer whose single ECORE record claims 12 bytes: the record
is clamped to the 8 available bytes. -/
def clampRegionBytes : List Nat :=
  [0x01, 0x01, 0x00, 0x06, 0x0C, 0x00, 0x00, 0x00]

/-- A Root node holding a single field `foo` with the given value. -/
def rootWithFoo (v : Nat) : Node := Node.root.add (Node.field "foo" v)

/-- Three Roots with `foo = 1, 2, 3` merged into one Root. -/
def mergedThree : Node :=
  ((Node.root.merge (rootWithFoo 1)).merge (rootWithFoo 2)).merge (rootWithFoo 3)

/-- A Root that already has children `foo`, `foo0` and `foo2` (note the gap
at `foo1`). -/
def gapRoot : Node :=
  ((Node.root.add (Node.field "foo" 1)).add (Node.field "foo0" 2)).add
    (Node.field "foo2" 4)

/-- `gapRoot` merged with a Root holding `foo = 9`: the incoming `foo` must
land at the smallest free instance name `foo1`. -/
def gapMerged : Node := gapRoot.merge (rootWithFoo 9)

/-! ## Theorems -/

/-- **C5.** For every parsed `Header`, `record_size()` equals
`(record_size + extended_record_size)` times a granularity that is 1 byte
when the record type is ECORE, or PCORE with `product_id < 0x71`, and
4 bytes otherwise; in particular ECORE with record-size field 5 and
extended 0 gives 5, MCA with record-size field 2 gives 8, and PCORE with
product id `0x7A` and record-size field 3 gives 12. -/
theorem c5_record_size_granularity :
    (∀ h : Header,
      h.recordSize = (h.size.recordSize + h.size.extendedRecordSize) *
        (if h.version.recordType = recordTypeECORE ∨
            (h.version.recordType = recordTypePCORE ∧ h.version.productId < 0x71)
          then 1 else 4))
    ∧ (∀ (v : Version) (ht : HeaderType), v.recordType = recordTypeECORE →
        Header.recordSize ⟨v, ⟨5, 0⟩, ht⟩ = 5)
    ∧ (∀ (v : Version) (ht : HeaderType), v.recordType = recordTypeMCA →
        Header.recordSize ⟨v, ⟨2, 0⟩, ht⟩ = 8)
    ∧ (∀ (v : Version) (ht : HeaderType),
        v.recordType = recordTypePCORE → v.productId = 0x7A →
        Header.recordSize ⟨v, ⟨3, 0⟩, ht⟩ = 12) := by
  refine ⟨fun h => ?_, fun v ht hv => ?_, fun v ht hv => ?_, fun v ht hv hp => ?_⟩
  · by_cases h1 : h.version.recordType = recordTypeECORE
    · simp [Header.recordSize, Header.recordSizeGranularity, h1]
    · by_cases h2 : h.version.recordType = recordTypePCORE ∧ h.version.productId < 0x71
      · simp [Header.recordSize, Header.recordSizeGranularity, h1, h2]
      · simp [Header.recordSize, Header.recordSizeGranularity, h1, h2]
  · simp [Header.recordSize, Header.recordSizeGranularity, hv]
  · simp [Header.recordSize, Header.recordSizeGranularity, hv,
      recordTypeMCA, recordTypeECORE, recordTypePCORE]
  · simp [Header.recordSize, Header.recordSizeGranularity, hv, hp,
      recordTypePCORE, recordTypeECORE]

/-- Witness for **C5**: the three concrete granularity instances at concrete
`Version` values. -/
theorem c5_record_size_granularity_witness :
    Header.recordSize ⟨⟨1, 1, 0, recordTypeECORE, false, false⟩, ⟨5, 0⟩, .type1⟩ = 5
    ∧ Header.recordSize ⟨⟨1, 1, 0, recordTypeMCA, false, false⟩, ⟨2, 0⟩, .type1⟩ = 8
    ∧ Header.recordSize ⟨⟨1, 1, 0x7A, recordTypePCORE, false, false⟩, ⟨3, 0⟩, .type1⟩ = 12 :=
  ⟨c5_record_size_granularity.2.1 _ _ rfl,
   c5_record_size_granularity.2.2.1 _ _ rfl,
   c5_record_size_granularity.2.2.2 _ _ rfl rfl⟩

/-- **C2, counterexample.** Decoding the schema rows
`foo;0;128`, `.aaa;8;8`, `..bbb;16;8`, `...ccc;24;8` against the 16-byte
buffer `[0x80, ..., 0x8F]` succeeds and produces a Record node at `foo` and
a node at `foo.aaa`, but *no* node at `foo.aaa.bbb` — contradicting the
claimed pop-then-append reading in which every leading empty segment pops
one level. -/
theorem c2_counterexample :
    (rec16.decodeWithCsv csvRows 0).toOption.map (fun root =>
      ((root.getByPath "foo").map Node.kind,
       (root.getByPath "foo.aaa").isSome,
       (root.getByPath "foo.aaa.bbb").isSome))
    = some (some .record, true, false) := by decide

/-- **C2, amended.** The rows produce a Record-kind node at `foo`, Field
nodes `foo.aaa` (value `0x81`), `foo.bbb` (value `0x82`) and a root-level
`ccc` (value `0x83`): the first leading dot only marks the name as relative,
and each *additional* leading dot pops one level off the current path stack
(`n` leading dots pop `n - 1` levels) before the remaining non-empty
segments are appended. -/
theorem c2_amended :
    (rec16.decodeWithCsv csvRows 0).toOption.map (fun root =>
      ((root.getByPath "foo").map Node.kind,
       (root.getByPath "foo.aaa").map Node.kind,
       (root.getByPath "foo.aaa.bbb").isSome,
       (root.getByPath "foo.bbb").map Node.kind,
       (root.getByPath "ccc").map Node.kind))
    = some (some .record, some (.field 0x81), false,
        some (.field 0x82), some (.field 0x83)) := by decide

/-- **C10.** `Record::payload` is partial at the public interface: regions
produced by `Region::from_slice` can hold a record whose buffer is shorter
than its header size (here an MCA record with a 24-byte type-2 header but a
computed record size of 8), and a record whose `cldic` flag is set with
fewer than 4 data bytes; on both, the `data[header_size()..len - 4]`
slicing of `Record::payload` panics (modelled by `payloadChecked = none`)
instead of returning an error. -/
theorem c10_payload_partial :
    ((Region.fromSlice mcaType2RegionBytes).toOption.map (fun r =>
      r.records.map (fun rec =>
        (decide (rec.data.length < rec.header.headerSize),
         rec.payloadChecked.isNone))))
    = some [(true, true)]
    ∧ ((Region.fromSlice cldicShortRegionBytes).toOption.map (fun r =>
      r.records.map (fun rec =>
        (rec.header.version.cldic, decide (rec.data.length < 4),
         rec.payloadChecked.isNone))))
    = some [(true, true, true)] := by decide

/-- `readLE` fails exactly when the read extends past the end of the slice. -/
theorem readLE_none_iff {s : List Nat} {off n : Nat} :
    readLE s off n = none ↔ s.length < off + n := by
  unfold readLE getSub
  split
  · next h => simp; omega
  · next h => simp; omega

/-- `readLE` succeeds exactly when the read fits, and then returns the
little-endian value of the sub-slice. -/
theorem readLE_some_iff {s : List Nat} {off n v : Nat} :
    readLE s off n = some v ↔
      off + n ≤ s.length ∧ v = leNat ((s.drop off).take n) := by
  unfold readLE getSub
  split
  · next h =>
    rw [Nat.add_sub_cancel_left]
    constructor
    · intro hv
      injection hv with hv
      exact ⟨h.2, hv.symm⟩
    · rintro ⟨-, rfl⟩
      rfl
  · next h =>
    constructor
    · intro hv; exact absurd hv (by simp)
    · rintro ⟨h4, -⟩; omega

/-- `Version::from_slice` returns `None` exactly on a short slice or a
termination marker. -/
theorem version_fromSlice_none_iff {s : List Nat} :
    Version.fromSlice s = none ↔
      s.length < 4 ∨ ∃ v, readLE s 0 4 = some v ∧ (v = 0 ∨ v = 0xdeadbeef) := by
  unfold Version.fromSlice
  cases h : readLE s 0 4 with
  | none =>
    have hlen : s.length < 4 := by
      have := (@readLE_none_iff s 0 4).mp h
      omega
    simp [hlen]
  | some v =>
    by_cases hm : v = 0 ∨ v = 0xdeadbeef
    · simp only [if_pos hm]
      constructor
      · intro _; exact Or.inr ⟨v, rfl, hm⟩
      · intro _; trivial
    · simp only [if_neg hm]
      constructor
      · intro hc; exact absurd hc (by simp)
      · rintro (hlt | ⟨w, hw, hmw⟩)
        · have := (readLE_some_iff.mp h).1; omega
        · cases hw; exact absurd hmw hm

/-- `Header::from_slice` returns `Ok(None)` exactly when `Version::from_slice`
reports a termination marker. -/
theorem header_ok_none_iff {s : List Nat} :
    Header.fromSlice s = .ok none ↔ Version.fromSlice s = none := by
  unfold Header.fromSlice
  cases hv : Version.fromSlice s with
  | none => simp
  | some version =>
    cases hrs : RecordSize.fromSlice s with
    | none => simp
    | some size =>
      cases hht : HeaderType.fromSlice version.headerType s with
      | error e => simp [hht]
      | ok ht => simp [hht]

/-- **C3, counterexample.** `Header::from_slice` on the empty slice returns
`Ok(None)`, not `Err(InvalidHeader)`: a slice shorter than 4 bytes cannot
even be checked for the termination marker, and the code treats the failed
4-byte read as a termination marker. -/
theorem c3_counterexample :
    Header.fromSlice ([] : List Nat) = .ok none
    ∧ Header.fromSlice ([] : List Nat) ≠ .error .InvalidHeader := by
  constructor
  · rfl
  · decide

/-- **C3, amended.** `Header::from_slice` returns `Ok(None)` exactly when the
slice is shorter than 4 bytes or its first 4 bytes, read as a little-endian
`u32`, equal `0` or `0xDEADBEEF`; for every slice of 4 to 7 bytes whose
first 4 bytes are not a termination marker it returns
`Err(InvalidHeader)`. -/
theorem c3_amended :
    (∀ s : List Nat,
      Header.fromSlice s = .ok none ↔
        (s.length < 4 ∨ ∃ v, readLE s 0 4 = some v ∧ (v = 0 ∨ v = 0xdeadbeef)))
    ∧ (∀ (s : List Nat) (v : Nat), s.length < 8 → readLE s 0 4 = some v →
        v ≠ 0 → v ≠ 0xdeadbeef → Header.fromSlice s = .error .InvalidHeader) := by
  constructor
  · intro s
    exact header_ok_none_iff.trans version_fromSlice_none_iff
  · intro s v hlen hv h0 hbeef
    unfold Header.fromSlice Version.fromSlice
    rw [hv]
    have hm : ¬(v = 0 ∨ v = 0xdeadbeef) := by tauto
    simp only [if_neg hm]
    have hrs : RecordSize.fromSlice s = none := by
      unfold RecordSize.fromSlice
      have h6 : readLE s 6 2 = none := readLE_none_iff.mpr (by omega)
      rw [h6]
      cases readLE s 4 2 <;> rfl
    rw [hrs]

/-- Witness for **C3**: the 5-byte slice `[1, 0, 0, 0, 5]` is not a
termination marker and parses to `Err(InvalidHeader)`. -/
theorem c3_amended_witness :
    Header.fromSlice [1, 0, 0, 0, 5] = .error .InvalidHeader :=
  c3_amended.2 [1, 0, 0, 0, 5] 1 (by decide) (by decide) (by decide) (by decide)

/-- Decompose a successful `Header::from_slice` into its three component
parses. -/
theorem header_fromSlice_parts {s : List Nat} {h : Header}
    (hok : Header.fromSlice s = .ok (some h)) :
    Version.fromSlice s = some h.version ∧ RecordSize.fromSlice s = some h.size
      ∧ HeaderType.fromSlice h.version.headerType s = .ok h.headerType := by
  unfold Header.fromSlice at hok
  split at hok
  · exact absurd hok (by simp)
  · next version hv =>
    split at hok
    · exact absurd hok (by simp)
    · next size hrs =>
      split at hok
      · exact absurd hok (by simp)
      · next ht hht =>
        injection hok with hok
        injection hok with hok
        subst hok
        exact ⟨hv, hrs, hht⟩

/-- Shape of a successful `type2_from_slice`. -/
theorem type2FromSlice_shape {s : List Nat} {ht : HeaderType}
    (h : HeaderType.type2FromSlice s = some ht) : ∃ t a r, ht = .type2 t a r := by
  unfold HeaderType.type2FromSlice at h
  simp only [Option.bind_eq_bind, Option.bind_eq_some, Option.pure_def,
    Option.some.injEq] at h
  obtain ⟨t, -, a, -, r, -, rfl⟩ := h
  exact ⟨t, a, r, rfl⟩

/-- Shape of a successful `type3_from_slice`. -/
theorem type3FromSlice_shape {s : List Nat} {ht : HeaderType}
    (h : HeaderType.type3FromSlice s = some ht) :
    ∃ t a r cs cc, ht = .type3 t a r cs cc := by
  unfold HeaderType.type3FromSlice at h
  simp only [Option.bind_eq_bind, Option.bind_eq_some, Option.pure_def,
    Option.some.injEq] at h
  obtain ⟨t, -, a, -, r, -, cs, -, rfl⟩ := h
  exact ⟨t, a, r, _, _, rfl⟩

/-- Shape of a successful `type4_from_slice`. -/
theorem type4FromSlice_shape {s : List Nat} {ht : HeaderType}
    (h : HeaderType.type4FromSlice s = some ht) :
    ∃ t a r w m, ht = .type4 t a r w m := by
  unfold HeaderType.type4FromSlice at h
  simp only [Option.bind_eq_bind, Option.bind_eq_some, Option.pure_def,
    Option.some.injEq] at h
  obtain ⟨t, -, a, -, r, -, w, -, m, -, rfl⟩ := h
  exact ⟨t, a, r, w, m, rfl⟩

/-- Shape of a successful `type5_from_slice`. -/
theorem type5FromSlice_shape {s : List Nat} {ht : HeaderType}
    (h : HeaderType.type5FromSlice s = some ht) :
    ∃ t a r cs cc es, ht = .type5 t a r cs cc es := by
  unfold HeaderType.type5FromSlice at h
  simp only [Option.bind_eq_bind, Option.bind_eq_some, Option.pure_def,
    Option.some.injEq] at h
  obtain ⟨t, -, a, -, r, -, cs, -, es, -, rfl⟩ := h
  exact ⟨t, a, r, _, _, es, rfl⟩

/-- Shape of a successful `type6_from_slice`: the completion-status count is
the masked `u16` from the `die_skt_info` bytes at offsets 26–27. -/
theorem type6FromSlice_shape {s : List Nat} {ht : HeaderType}
    (h : HeaderType.type6FromSlice s = some ht) :
    ∃ t a r d so cs2 cs3 cs cc, getSub s 24 28 = some [d, so, cs2, cs3]
      ∧ ht = .type6 t a r d so ((cs2 + 256 * cs3) &&& 0x7F) cs cc := by
  unfold HeaderType.type6FromSlice at h
  simp only [Option.bind_eq_bind, Option.bind_eq_some, Option.pure_def,
    Option.some.injEq] at h
  obtain ⟨t, -, a, -, r, -, h⟩ := h
  split at h
  · next d so cs2 cs3 heq =>
    simp only [Option.bind_eq_bind, Option.bind_eq_some, Option.pure_def,
      Option.some.injEq] at h
    obtain ⟨cs, -, rfl⟩ := h
    exact ⟨t, a, r, d, so, cs2, cs3, cs, _, heq, rfl⟩
  · exact absurd h (by simp)

/-- A successful 4-byte `get` at 24..28 determines the 2-byte read at 26. -/
theorem readLE_26_of_getSub_24 {s : List Nat} {d so cs2 cs3 : Nat}
    (h : getSub s 24 28 = some [d, so, cs2, cs3]) :
    readLE s 26 2 = some (cs2 + 256 * cs3) := by
  unfold getSub at h
  split at h
  · next hc =>
    injection h with h
    norm_num at h
    have h2 : ((s.drop 24).take 4).drop 2 = [cs2, cs3] := by rw [h]; rfl
    have h26 : (s.drop 26).take 2 = [cs2, cs3] := by
      have hdt := List.drop_take 4 2 (s.drop 24)
      norm_num at hdt
      rw [← hdt]
      exact h2
    unfold readLE getSub
    rw [if_pos (by omega)]
    simp [h26, leNat]
  · exact absurd h (by simp)

/-- Masking with `0x7F` is reduction mod 128, hence at most 127. -/
theorem and_7F_le (x : Nat) : x &&& 0x7F = x % 128 ∧ x &&& 0x7F ≤ 127 := by
  have h : x &&& 0x7F = x % 128 := by
    have := Nat.and_pow_two_sub_one_eq_mod x 7
    norm_num at this
    exact this
  exact ⟨h, by omega⟩

/-- **C4.** For every successfully parsed `Header`, `header_size()` is
determined by the header-type code: 0 and 1 give 8 bytes, 2 gives 24,
3 gives 28, 4 and 5 give 32, and 6 gives `28 + 4 * n` where `n` is the
completion-status size encoded at byte offsets 26–27 of the header, masked
to 7 bits, so `n ≤ 127`. -/
theorem c4_header_size (s : List Nat) (h : Header)
    (hok : Header.fromSlice s = .ok (some h)) :
    ((h.version.headerType = 0 ∨ h.version.headerType = 1) → h.headerSize = 8)
    ∧ (h.version.headerType = 2 → h.headerSize = 24)
    ∧ (h.version.headerType = 3 → h.headerSize = 28)
    ∧ ((h.version.headerType = 4 ∨ h.version.headerType = 5) → h.headerSize = 32)
    ∧ (h.version.headerType = 6 →
        ∃ w, readLE s 26 2 = some w ∧ h.headerSize = 28 + 4 * (w &&& 0x7F)
          ∧ w &&& 0x7F ≤ 127) := by
  obtain ⟨-, -, hht⟩ := header_fromSlice_parts hok
  refine ⟨?_, ?_, ?_, ?_, ?_⟩
  · rintro (hc | hc) <;> rw [hc] at hht <;>
      unfold HeaderType.fromSlice at hht <;> injection hht with hht <;>
      simp [Header.headerSize, ← hht]
  · intro hc
    rw [hc] at hht
    unfold HeaderType.fromSlice at hht
    cases h2 : HeaderType.type2FromSlice s with
    | none => rw [h2] at hht; exact absurd hht (by simp)
    | some ht =>
      rw [h2] at hht
      injection hht with hht
      obtain ⟨t, a, r, rfl⟩ := type2FromSlice_shape h2
      simp [Header.headerSize, ← hht]
  · intro hc
    rw [hc] at hht
    unfold HeaderType.fromSlice at hht
    cases h3 : HeaderType.type3FromSlice s with
    | none => rw [h3] at hht; exact absurd hht (by simp)
    | some ht =>
      rw [h3] at hht
      injection hht with hht
      obtain ⟨t, a, r, cs, cc, rfl⟩ := type3FromSlice_shape h3
      simp [Header.headerSize, ← hht]
  · rintro (hc | hc) <;> rw [hc] at hht <;> unfold HeaderType.fromSlice at hht
    · cases h4 : HeaderType.type4FromSlice s with
      | none => rw [h4] at hht; exact absurd hht (by simp)
      | some ht =>
        rw [h4] at hht
        injection hht with hht
        obtain ⟨t, a, r, w, m, rfl⟩ := type4FromSlice_shape h4
        simp [Header.headerSize, ← hht]
    · cases h5 : HeaderType.type5FromSlice s with
      | none => rw [h5] at hht; exact absurd hht (by simp)
      | some ht =>
        rw [h5] at hht
        injection hht with hht
        obtain ⟨t, a, r, cs, cc, es, rfl⟩ := type5FromSlice_shape h5
        simp [Header.headerSize, ← hht]
  · intro hc
    rw [hc] at hht
    unfold HeaderType.fromSlice at hht
    cases h6 : HeaderType.type6FromSlice s with
    | none => rw [h6] at hht; exact absurd hht (by simp)
    | some ht =>
      rw [h6] at hht
      injection hht with hht
      obtain ⟨t, a, r, d, so, cs2, cs3, cs, cc, hget, rfl⟩ := type6FromSlice_shape h6
      refine ⟨cs2 + 256 * cs3, readLE_26_of_getSub_24 hget, ?_,
        (and_7F_le (cs2 + 256 * cs3)).2⟩
      simp [Header.headerSize, ← hht]
      ring

/-- Witness for **C4**: the type-6 slice `t6bytes` parses, its encoded
completion-status size is 3 (from the `u16` `0x8003` masked to 7 bits), and
its header size is `28 + 4 * 3 = 40`. -/
theorem c4_header_size_witness :
    ∃ w, readLE t6bytes 26 2 = some w
      ∧ t6Header.headerSize = 28 + 4 * (w &&& 0x7F) ∧ w &&& 0x7F ≤ 127 :=
  (c4_header_size t6bytes t6Header (by decide)).2.2.2.2 rfl

/-- Disjoint bitwise-or is addition: or-ing a multiple of `2^k` with a value
below `2^k` adds them. -/
theorem or_eq_add_of_lt {x b : Nat} (k : Nat) (hx : x % 2 ^ k = 0)
    (hb : b < 2 ^ k) : x ||| b = x + b := by
  obtain ⟨a, ha⟩ : ∃ a, x = 2 ^ k * a :=
    ⟨x / 2 ^ k, by rw [Nat.mul_div_cancel' (Nat.dvd_of_mod_eq_zero hx)]⟩
  subst ha
  exact (Nat.mul_add_lt_is_or hb a).symm

/-- The little-endian value of `le32Bytes v` is `v mod 2^32`. -/
theorem leNat_le32Bytes (v : Nat) : leNat (le32Bytes v) = v % 2 ^ 32 := by
  simp only [le32Bytes, leNat]
  omega

/-- **C9.** For every `u32` value other than the two termination markers,
parsing its little-endian bytes with `Version::from_slice` succeeds and
re-encoding with `as_u32` gives back the value exactly: the six bit-fields
partition all 32 bits. -/
theorem c9_version_roundtrip (v : Nat) (hlt : v < 2 ^ 32) (h0 : v ≠ 0)
    (hbeef : v ≠ 0xdeadbeef) :
    (Version.fromSlice (le32Bytes v)).map Version.asU32 = some v := by
  have hread : readLE (le32Bytes v) 0 4 = some v := by
    have : getSub (le32Bytes v) 0 4 = some (le32Bytes v) := by
      unfold getSub
      rw [if_pos (by simp [le32Bytes])]
      simp [le32Bytes]
    unfold readLE
    rw [this]
    show some (leNat (le32Bytes v)) = some v
    rw [leNat_le32Bytes, Nat.mod_eq_of_lt hlt]
  unfold Version.fromSlice
  rw [hread]
  dsimp only
  rw [if_neg (by tauto)]
  simp only [Option.map_some']
  congr 1
  unfold Version.asU32
  simp only [Nat.shiftRight_eq_div_pow, Nat.shiftLeft_eq, Nat.and_one_is_mod]
  have hand8 : v &&& 0xFF = v % 2 ^ 8 := Nat.and_pow_two_sub_one_eq_mod v 8
  have hand4 : v / 2 ^ 8 &&& 0xF = v / 2 ^ 8 % 2 ^ 4 :=
    Nat.and_pow_two_sub_one_eq_mod (v / 2 ^ 8) 4
  have hand12 : v / 2 ^ 12 &&& 0xFFF = v / 2 ^ 12 % 2 ^ 12 :=
    Nat.and_pow_two_sub_one_eq_mod (v / 2 ^ 12) 12
  have hand6 : v / 2 ^ 24 &&& 0x3F = v / 2 ^ 24 % 2 ^ 6 :=
    Nat.and_pow_two_sub_one_eq_mod (v / 2 ^ 24) 6
  rw [hand8, hand4, hand12, hand6]
  have hc31 : (if v / 2 ^ 31 % 2 = 1 then 1 else 0) * 2 ^ 31
      = v / 2 ^ 31 % 2 * 2 ^ 31 := by
    by_cases hb : v / 2 ^ 31 % 2 = 1
    · rw [if_pos hb, hb]
    · rw [if_neg hb]
      omega
  have hc30 : (if v / 2 ^ 30 % 2 = 1 then 1 else 0) * 2 ^ 30
      = v / 2 ^ 30 % 2 * 2 ^ 30 := by
    by_cases hb : v / 2 ^ 30 % 2 = 1
    · rw [if_pos hb, hb]
    · rw [if_neg hb]
      omega
  simp only [decide_eq_true_eq]
  rw [hc31, hc30]
  have e1 : v / 2 ^ 31 % 2 * 2 ^ 31 ||| v / 2 ^ 30 % 2 * 2 ^ 30
      = v / 2 ^ 31 % 2 * 2 ^ 31 + v / 2 ^ 30 % 2 * 2 ^ 30 :=
    or_eq_add_of_lt 31 (by omega) (by omega)
  have e2 : v / 2 ^ 31 % 2 * 2 ^ 31 + v / 2 ^ 30 % 2 * 2 ^ 30
        ||| v / 2 ^ 24 % 2 ^ 6 * 2 ^ 24
      = v / 2 ^ 31 % 2 * 2 ^ 31 + v / 2 ^ 30 % 2 * 2 ^ 30
        + v / 2 ^ 24 % 2 ^ 6 * 2 ^ 24 :=
    or_eq_add_of_lt 30 (by omega) (by omega)
  have e3 : v / 2 ^ 31 % 2 * 2 ^ 31 + v / 2 ^ 30 % 2 * 2 ^ 30
        + v / 2 ^ 24 % 2 ^ 6 * 2 ^ 24 ||| v / 2 ^ 12 % 2 ^ 12 * 2 ^ 12
      = v / 2 ^ 31 % 2 * 2 ^ 31 + v / 2 ^ 30 % 2 * 2 ^ 30
        + v / 2 ^ 24 % 2 ^ 6 * 2 ^ 24 + v / 2 ^ 12 % 2 ^ 12 * 2 ^ 12 :=
    or_eq_add_of_lt 24 (by omega) (by omega)
  have e4 : v / 2 ^ 31 % 2 * 2 ^ 31 + v / 2 ^ 30 % 2 * 2 ^ 30
        + v / 2 ^ 24 % 2 ^ 6 * 2 ^ 24 + v / 2 ^ 12 % 2 ^ 12 * 2 ^ 12
        ||| v / 2 ^ 8 % 2 ^ 4 * 2 ^ 8
      = v / 2 ^ 31 % 2 * 2 ^ 31 + v / 2 ^ 30 % 2 * 2 ^ 30
        + v / 2 ^ 24 % 2 ^ 6 * 2 ^ 24 + v / 2 ^ 12 % 2 ^ 12 * 2 ^ 12
        + v / 2 ^ 8 % 2 ^ 4 * 2 ^ 8 :=
    or_eq_add_of_lt 12 (by omega) (by omega)
  have e5 : v / 2 ^ 31 % 2 * 2 ^ 31 + v / 2 ^ 30 % 2 * 2 ^ 30
        + v / 2 ^ 24 % 2 ^ 6 * 2 ^ 24 + v / 2 ^ 12 % 2 ^ 12 * 2 ^ 12
        + v / 2 ^ 8 % 2 ^ 4 * 2 ^ 8 ||| v % 2 ^ 8
      = v / 2 ^ 31 % 2 * 2 ^ 31 + v / 2 ^ 30 % 2 * 2 ^ 30
        + v / 2 ^ 24 % 2 ^ 6 * 2 ^ 24 + v / 2 ^ 12 % 2 ^ 12 * 2 ^ 12
        + v / 2 ^ 8 % 2 ^ 4 * 2 ^ 8 + v % 2 ^ 8 :=
    or_eq_add_of_lt 8 (by omega) (by omega)
  rw [e1, e2, e3, e4, e5]
  omega

/-- Witness for **C9**: round-trip at the concrete value `0x06000101`. -/
theorem c9_version_roundtrip_witness :
    (Version.fromSlice (le32Bytes 0x06000101)).map Version.asU32
      = some 0x06000101 :=
  c9_version_roundtrip 0x06000101 (by decide) (by decide) (by decide)

/-- **C7.** `Node::merge` resolves a name collision on a Record or Field
child by renaming the incoming node to `{name}{instance}` for the smallest
non-negative instance whose name is free and inserting it as a sibling,
never overwriting or dropping a node: merging three Roots with `foo = 1, 2,
3` yields exactly the children `foo = 1`, `foo0 = 2`, `foo1 = 3`; and
merging `foo = 9` into a Root that already has `foo`, `foo0` and `foo2`
lands at the smallest free name `foo1`, leaving `foo2` untouched. -/
theorem c7_merge_instance_splitting :
    (((mergedThree.getByPath "foo").map Node.kind = some (.field 1))
      ∧ ((mergedThree.getByPath "foo0").map Node.kind = some (.field 2))
      ∧ ((mergedThree.getByPath "foo1").map Node.kind = some (.field 3))
      ∧ mergedThree.children.length = 3)
    ∧ (((gapMerged.getByPath "foo").map Node.kind = some (.field 1))
      ∧ ((gapMerged.getByPath "foo0").map Node.kind = some (.field 2))
      ∧ ((gapMerged.getByPath "foo1").map Node.kind = some (.field 9))
      ∧ ((gapMerged.getByPath "foo2").map Node.kind = some (.field 4))
      ∧ gapMerged.children.length = 4) := by decide

/-- Once a record has been collected, the region scan loop never reports an
error. -/
theorem regionLoop_ne_error {bytes : List Nat} :
    ∀ (fuel cursor : Nat) (acc : List Record), acc ≠ [] →
      ∀ e, regionLoop bytes fuel cursor acc ≠ .error e := by
  intro fuel
  induction fuel with
  | zero => intro cursor acc hacc e; simp [regionLoop]
  | succ n ih =>
    intro cursor acc hacc e
    unfold regionLoop
    split
    · split
      · next err _ =>
        have hempty : acc.isEmpty = false := by
          cases acc with
          | nil => exact absurd rfl hacc
          | cons a as => rfl
        rw [hempty]
        simp
      · simp
      · next header _ =>
        dsimp only
        split
        · simp
        · exact ih _ _ (by simp)  e
    · simp

/-- **C8.** `Region::from_slice` returns an error exactly when a header
parse error occurs with zero records collected — that is, when the buffer is
non-empty and its very first header fails to parse (and the error is that
header error).  In every other case it returns `Ok`: it stops cleanly on a
termination marker (parsing the same records with or without the trailing
marker), stops silently on trailing garbage once a record has been
collected, stops when a record's computed size is 0, and appends a record
whose claimed size extends past the buffer end with its byte range clamped
to the available bytes. -/
theorem c8_region_error_characterization :
    (∀ (bytes : List Nat) (e : Error),
      Region.fromSlice bytes = .error e ↔
        (bytes ≠ [] ∧ Header.fromSlice bytes = .error e))
    ∧ Region.fromSlice (ecoreRec8 ++ [0, 0, 0, 0]) = Region.fromSlice ecoreRec8
    ∧ (Region.fromSlice (ecoreRec8 ++ [7, 7])).toOption.map
        (fun r => r.records.map Record.data) = some [ecoreRec8]
    ∧ (Region.fromSlice zeroSizeRegionBytes).toOption.map
        (fun r => r.records.length) = some 0
    ∧ (Region.fromSlice clampRegionBytes).toOption.map
        (fun r => r.records.map (fun rec => (rec.header.recordSize, rec.data)))
      = some [(12, clampRegionBytes)] := by
  refine ⟨?_, by decide, by decide, by decide, by decide⟩
  intro bytes e
  constructor
  · intro herr
    unfold Region.fromSlice at herr
    have hloop : regionLoop bytes (bytes.length + 1) 0 [] = .error e := by
      cases hl : regionLoop bytes (bytes.length + 1) 0 [] with
      | error e' => rw [hl] at herr; injection herr with herr; rw [herr]
      | ok recs => rw [hl] at herr; exact absurd herr (by simp [Except.map])
    unfold regionLoop at hloop
    rw [List.drop_zero] at hloop
    by_cases hcur : 0 < bytes.length
    · rw [if_pos hcur] at hloop
      have hne : bytes ≠ [] := by
        intro hnil
        rw [hnil] at hcur
        exact absurd hcur (by simp)
      refine ⟨hne, ?_⟩
      cases hh : Header.fromSlice bytes with
      | error err =>
        rw [hh] at hloop
        simp only [List.isEmpty_nil, if_true] at hloop
        injection hloop with hloop
        rw [hloop]
      | ok oh =>
        rw [hh] at hloop
        cases oh with
        | none => exact absurd hloop (by simp)
        | some header =>
          simp only at hloop
          split at hloop
          · exact absurd hloop (by simp)
          · exact absurd hloop (regionLoop_ne_error _ _ _ (by simp) e)
    · rw [if_neg hcur] at hloop
      exact absurd hloop (by simp)
  · rintro ⟨hne, hh⟩
    unfold Region.fromSlice regionLoop
    rw [List.drop_zero, if_pos (List.length_pos.mpr hne), hh]
    rfl

/-- Indexing into a byte list is extracting a byte of its little-endian
value. -/
theorem leNat_getD : ∀ (data : List Nat), (∀ b ∈ data, b < 256) →
    ∀ i, i < data.length → data.getD i 0 = leNat data / 2 ^ (8 * i) % 2 ^ 8 := by
  intro data
  induction data with
  | nil => intro _ i hi; simp at hi
  | cons b rest ih =>
    intro hb i hi
    cases i with
    | zero =>
      have hblt : b < 256 := hb b (by simp)
      simp only [List.getD_cons_zero, Nat.mul_zero, pow_zero, Nat.div_one, leNat]
      omega
    | succ i =>
      have hvals : ∀ x ∈ rest, x < 256 := fun x hx => hb x (by simp [hx])
      have hlen : i < rest.length := by simp at hi; omega
      have hrec := ih hvals i hlen
      have hdiv : leNat (b :: rest) / 2 ^ (8 * (i + 1)) = leNat rest / 2 ^ (8 * i) := by
        have hpow : (2 : Nat) ^ (8 * (i + 1)) = 256 * 2 ^ (8 * i) := by
          rw [show 8 * (i + 1) = 8 + 8 * i by ring, pow_add]
          norm_num
        have hblt : b < 256 := hb b (by simp)
        rw [hpow, ← Nat.div_div_eq_div_mul]
        congr 1
        show (b + 256 * leNat rest) / 256 = leNat rest
        omega
      simp only [List.getD_cons_succ]
      rw [hrec, hdiv]

/-- Splitting a mod by a power of two into low and high parts. -/
theorem mod_pow_split (x a b : Nat) :
    x % 2 ^ (a + b) = x % 2 ^ a + 2 ^ a * (x / 2 ^ a % 2 ^ b) := by
  rw [pow_add]
  exact Nat.mod_mul

/-- The single-chunk extraction of `read_field`: shifting a byte right and
masking is a div-mod window on the byte's value. -/
theorem capture_eq (y boff w : Nat) (hboff : boff < 8) :
    ((y % 2 ^ 8) >>> boff) &&& (1 <<< w - 1)
      = y / 2 ^ boff % 2 ^ (min w (8 - boff)) := by
  rw [Nat.shiftRight_eq_div_pow]
  have h1 : y % 2 ^ 8 / 2 ^ boff = y / 2 ^ boff % 2 ^ (8 - boff) := by
    have hpow : (2 : Nat) ^ 8 = 2 ^ boff * 2 ^ (8 - boff) := by
      rw [← pow_add]
      congr 1
      omega
    rw [hpow, Nat.mod_mul_right_div_self]
  rw [h1]
  have hmask : (1 <<< w - 1 : Nat) = 2 ^ w - 1 := by rw [Nat.shiftLeft_eq, one_mul]
  rw [hmask, Nat.and_pow_two_sub_one_eq_mod]
  rcases Nat.le_total w (8 - boff) with hle | hle
  · rw [Nat.mod_mod_of_dvd _ (pow_dvd_pow 2 hle), Nat.min_eq_left hle]
  · rw [Nat.min_eq_right hle,
      Nat.mod_eq_of_lt (lt_of_lt_of_le (Nat.mod_lt _ (by positivity))
        (Nat.pow_le_pow_right (by norm_num) hle))]

/-- Correctness of the `read_field` scan loop: starting from an accumulator
holding the bits below `bit`, it returns the full `size`-bit window of the
buffer's little-endian value, or `none` exactly when the window extends past
the end of the buffer. -/
theorem readFieldAux_correct (data : List Nat) (hb : ∀ b ∈ data, b < 256)
    (offset size : Nat) :
    ∀ fuel bit value, bit < size → size - bit < fuel →
      value = leNat data / 2 ^ offset % 2 ^ bit →
      Record.readFieldAux data offset size fuel bit value =
        if 8 * data.length < offset + size then none
        else some (leNat data / 2 ^ offset % 2 ^ size) := by
  intro fuel
  induction fuel with
  | zero => intro bit value hbit hfuel _; omega
  | succ n ih =>
    intro bit value hbit hfuel hval
    unfold Record.readFieldAux
    rw [if_pos hbit]
    dsimp only
    by_cases hchunk : (offset + bit) / 8 < data.length
    · rw [if_pos hchunk]
      have hboff8 : (offset + bit) % 8 < 8 := Nat.mod_lt _ (by norm_num)
      have hbyte : data.getD ((offset + bit) / 8) 0
          = leNat data / 2 ^ (8 * ((offset + bit) / 8)) % 2 ^ 8 :=
        leNat_getD data hb _ hchunk
      have hcap : (data.getD ((offset + bit) / 8) 0 >>> ((offset + bit) % 8))
            &&& (1 <<< min (size - bit) 8 - 1)
          = leNat data / 2 ^ (offset + bit)
              % 2 ^ (min (size - bit) (8 - (offset + bit) % 8)) := by
        rw [hbyte, capture_eq _ _ _ hboff8, Nat.div_div_eq_div_mul, ← pow_add]
        rw [min_assoc, Nat.min_eq_right (show 8 - (offset + bit) % 8 ≤ 8 by omega)]
        rw [Nat.div_add_mod]
      rw [hcap]
      have hmin : min size (bit + (8 - (offset + bit) % 8))
          = bit + min (size - bit) (8 - (offset + bit) % 8) := by
        rcases Nat.le_total (size - bit) (8 - (offset + bit) % 8) with hcase | hcase
        · rw [Nat.min_eq_left hcase,
            Nat.min_eq_left (show size ≤ bit + (8 - (offset + bit) % 8) by omega)]
          omega
        · rw [Nat.min_eq_right hcase,
            Nat.min_eq_right (show bit + (8 - (offset + bit) % 8) ≤ size by omega)]
      have hval' : value ||| ((leNat data / 2 ^ (offset + bit)
            % 2 ^ (min (size - bit) (8 - (offset + bit) % 8))) <<< bit)
          = leNat data / 2 ^ offset
              % 2 ^ (min size (bit + (8 - (offset + bit) % 8))) := by
        rw [Nat.shiftLeft_eq, hval, Nat.or_comm,
          or_eq_add_of_lt bit (Nat.mul_mod_left _ _)
            (Nat.mod_lt _ (by positivity)),
          hmin, mod_pow_split (leNat data / 2 ^ offset) bit]
        have hdd : leNat data / 2 ^ offset / 2 ^ bit
            = leNat data / 2 ^ (offset + bit) := by
          rw [Nat.div_div_eq_div_mul, ← pow_add]
        rw [hdd]
        ring
      by_cases hnext : bit + (8 - (offset + bit) % 8) < size
      · have hv : value ||| ((leNat data / 2 ^ (offset + bit)
              % 2 ^ (min (size - bit) (8 - (offset + bit) % 8))) <<< bit)
            = leNat data / 2 ^ offset % 2 ^ (bit + (8 - (offset + bit) % 8)) := by
          rw [hval', Nat.min_eq_right (le_of_lt hnext)]
        exact ih _ _ hnext (by omega) hv
      · have hv : value ||| ((leNat data / 2 ^ (offset + bit)
              % 2 ^ (min (size - bit) (8 - (offset + bit) % 8))) <<< bit)
            = leNat data / 2 ^ offset % 2 ^ size := by
          rw [hval', Nat.min_eq_left (by omega)]
        have hfits : ¬ (8 * data.length < offset + size) := by
          have h2 : offset + bit = 8 * ((offset + bit) / 8) + (offset + bit) % 8 :=
            (Nat.div_add_mod _ _).symm
          omega
        rw [if_neg hfits]
        cases n with
        | zero => simp [Record.readFieldAux, hv]
        | succ m =>
          unfold Record.readFieldAux
          rw [if_neg (by omega), hv]
    · rw [if_neg hchunk]
      have hpast : 8 * data.length < offset + size := by
        have h1 : data.length ≤ (offset + bit) / 8 := le_of_not_lt hchunk
        have h2 : offset + bit = 8 * ((offset + bit) / 8) + (offset + bit) % 8 :=
          (Nat.div_add_mod _ _).symm
        omega
      rw [if_pos hpast]

/-- **C6.** `Record::read_field` returns `None` exactly when the requested
width exceeds 64 bits or a non-empty read extends past the end of the record
buffer; otherwise it returns the unsigned integer assembled LSB-first across
bytes in little-endian byte order — the bit window
`(leNat data >> offset) mod 2^size` of the buffer's little-endian value.  On
the buffer `[0x80, 0x81, ..., 0x8F]`, offset 4 with size 64 yields
`0x8878685848382818` and offset 4 with size 8 yields `0x18`. -/
theorem c6_read_field :
    (∀ (r : Record) (offset size : Nat), (∀ b ∈ r.data, b < 256) →
      r.readField offset size =
        if 64 < size then none
        else if 0 < size ∧ 8 * r.data.length < offset + size then none
        else some (leNat r.data / 2 ^ offset % 2 ^ size))
    ∧ rec16.readField 4 64 = some 0x8878685848382818
    ∧ rec16.readField 4 8 = some 0x18 := by
  refine ⟨?_, by decide, by decide⟩
  intro r offset size hb
  unfold Record.readField
  by_cases h64 : 64 < size
  · rw [if_pos h64, if_pos h64]
  · rw [if_neg h64, if_neg h64]
    rcases Nat.eq_zero_or_pos size with hz | hpos
    · subst hz
      rw [if_neg (by simp)]
      unfold Record.readFieldAux
      rw [if_neg (by omega)]
      simp [Nat.mod_one]
    · rw [readFieldAux_correct r.data hb offset size (size + 1) 0 0 hpos
        (by omega) (by simp [Nat.mod_one])]
      by_cases hpast : 8 * r.data.length < offset + size
      · rw [if_pos hpast, if_pos ⟨hpos, hpast⟩]
      · rw [if_neg hpast, if_neg (by tauto)]

/-- Witness for **C6**: the general characterization applied to the concrete
buffer `[0x80, ..., 0x8F]` at offset 4, size 64 (within bounds). -/
theorem c6_read_field_witness :
    rec16.readField 4 64 =
      if 64 < 64 then none
      else if 0 < 64 ∧ 8 * rec16.data.length < 4 + 64 then none
      else some (leNat rec16.data / 2 ^ 4 % 2 ^ 64) :=
  c6_read_field.1 rec16 4 64 (by decide)

/-- A successful `get` implies the end bound is within the slice. -/
theorem getSub_some_le {s : List Nat} {a b : Nat} {l : List Nat}
    (h : getSub s a b = some l) : b ≤ s.length := by
  unfold getSub at h
  split at h
  · next hc => exact hc.2
  · exact absurd h (by simp)

/-- A `get` that stays within `xs` is unchanged by appending to `xs`. -/
theorem getSub_append {xs ys : List Nat} {a b : Nat} (h : b ≤ xs.length) :
    getSub (xs ++ ys) a b = getSub xs a b := by
  unfold getSub
  by_cases hab : a ≤ b
  · rw [if_pos ⟨hab, by simp; omega⟩, if_pos ⟨hab, h⟩]
    congr 1
    rw [List.drop_append_of_le_length (by omega),
      List.take_append_of_le_length (by simp [List.length_drop]; omega)]
  · rw [if_neg (by tauto), if_neg (by tauto)]

/-- A read that stays within `xs` is unchanged by appending to `xs`. -/
theorem readLE_append {xs ys : List Nat} {off n : Nat} (h : off + n ≤ xs.length) :
    readLE (xs ++ ys) off n = readLE xs off n := by
  unfold readLE
  rw [getSub_append h]

/-- A successful `Version::from_slice` is unchanged by appending bytes. -/
theorem version_fromSlice_append {xs ys : List Nat} {ver : Version}
    (h : Version.fromSlice xs = some ver) :
    Version.fromSlice (xs ++ ys) = some ver := by
  unfold Version.fromSlice at h ⊢
  cases hr : readLE xs 0 4 with
  | none => rw [hr] at h; exact absurd h (by simp)
  | some v =>
    rw [hr] at h
    have hlen : 0 + 4 ≤ xs.length := (readLE_some_iff.mp hr).1
    rw [readLE_append hlen, hr]
    exact h

/-- A successful `RecordSize::from_slice` is unchanged by appending bytes. -/
theorem recordSize_fromSlice_append {xs ys : List Nat} {sz : RecordSize}
    (h : RecordSize.fromSlice xs = some sz) :
    RecordSize.fromSlice (xs ++ ys) = some sz := by
  unfold RecordSize.fromSlice at h ⊢
  cases h4 : readLE xs 4 2 with
  | none => rw [h4] at h; exact absurd h (by simp)
  | some rs =>
    cases h6 : readLE xs 6 2 with
    | none => rw [h4, h6] at h; exact absurd h (by simp)
    | some ers =>
      rw [h4, h6] at h
      rw [readLE_append (readLE_some_iff.mp h4).1,
        readLE_append (readLE_some_iff.mp h6).1, h4, h6]
      exact h

/-- A successful `type2_from_slice` is unchanged by appending bytes. -/
theorem type2FromSlice_append {xs ys : List Nat} {ht : HeaderType}
    (h : HeaderType.type2FromSlice xs = some ht) :
    HeaderType.type2FromSlice (xs ++ ys) = some ht := by
  unfold HeaderType.type2FromSlice at h ⊢
  simp only [Option.bind_eq_bind, Option.bind_eq_some, Option.pure_def,
    Option.some.injEq] at h ⊢
  obtain ⟨t, h1, a, h2, r, h3, rfl⟩ := h
  exact ⟨t, by rw [readLE_append (readLE_some_iff.mp h1).1]; exact h1,
    a, by rw [readLE_append (readLE_some_iff.mp h2).1]; exact h2,
    r, by rw [readLE_append (readLE_some_iff.mp h3).1]; exact h3, rfl⟩

/-- A successful `type3_from_slice` is unchanged by appending bytes. -/
theorem type3FromSlice_append {xs ys : List Nat} {ht : HeaderType}
    (h : HeaderType.type3FromSlice xs = some ht) :
    HeaderType.type3FromSlice (xs ++ ys) = some ht := by
  unfold HeaderType.type3FromSlice at h ⊢
  simp only [Option.bind_eq_bind, Option.bind_eq_some, Option.pure_def,
    Option.some.injEq] at h ⊢
  obtain ⟨t, h1, a, h2, r, h3, cs, h4, rfl⟩ := h
  exact ⟨t, by rw [readLE_append (readLE_some_iff.mp h1).1]; exact h1,
    a, by rw [readLE_append (readLE_some_iff.mp h2).1]; exact h2,
    r, by rw [readLE_append (readLE_some_iff.mp h3).1]; exact h3,
    cs, by rw [readLE_append (readLE_some_iff.mp h4).1]; exact h4, rfl⟩

/-- A successful `type4_from_slice` is unchanged by appending bytes. -/
theorem type4FromSlice_append {xs ys : List Nat} {ht : HeaderType}
    (h : HeaderType.type4FromSlice xs = some ht) :
    HeaderType.type4FromSlice (xs ++ ys) = some ht := by
  unfold HeaderType.type4FromSlice at h ⊢
  simp only [Option.bind_eq_bind, Option.bind_eq_some, Option.pure_def,
    Option.some.injEq] at h ⊢
  obtain ⟨t, h1, a, h2, r, h3, w, h4, m, h5, rfl⟩ := h
  exact ⟨t, by rw [readLE_append (readLE_some_iff.mp h1).1]; exact h1,
    a, by rw [readLE_append (readLE_some_iff.mp h2).1]; exact h2,
    r, by rw [readLE_append (readLE_some_iff.mp h3).1]; exact h3,
    w, by rw [readLE_append (readLE_some_iff.mp h4).1]; exact h4,
    m, by rw [readLE_append (readLE_some_iff.mp h5).1]; exact h5, rfl⟩

/-- A successful `type5_from_slice` is unchanged by appending bytes. -/
theorem type5FromSlice_append {xs ys : List Nat} {ht : HeaderType}
    (h : HeaderType.type5FromSlice xs = some ht) :
    HeaderType.type5FromSlice (xs ++ ys) = some ht := by
  unfold HeaderType.type5FromSlice at h ⊢
  simp only [Option.bind_eq_bind, Option.bind_eq_some, Option.pure_def,
    Option.some.injEq] at h ⊢
  obtain ⟨t, h1, a, h2, r, h3, cs, h4, es, h5, rfl⟩ := h
  exact ⟨t, by rw [readLE_append (readLE_some_iff.mp h1).1]; exact h1,
    a, by rw [readLE_append (readLE_some_iff.mp h2).1]; exact h2,
    r, by rw [readLE_append (readLE_some_iff.mp h3).1]; exact h3,
    cs, by rw [readLE_append (readLE_some_iff.mp h4).1]; exact h4,
    es, by rw [readLE_append (readLE_some_iff.mp h5).1]; exact h5, rfl⟩

/-- A successful batch of completion-status reads is unchanged by appending
bytes. -/
theorem mapM_readLE_append {xs ys : List Nat} :
    ∀ (l : List Nat) (res : List Nat),
      l.mapM (fun d => readLE xs (28 + d * 4) 4) = some res →
      l.mapM (fun d => readLE (xs ++ ys) (28 + d * 4) 4) = some res := by
  intro l
  induction l with
  | nil => intro res h; simpa using h
  | cons d rest ih =>
    intro res h
    rw [List.mapM_cons] at h ⊢
    simp only [Option.bind_eq_bind, Option.bind_eq_some, Option.pure_def,
      Option.some.injEq] at h ⊢
    obtain ⟨v, hv, vs, hvs, rfl⟩ := h
    exact ⟨v, by rw [readLE_append (readLE_some_iff.mp hv).1]; exact hv,
      vs, ih vs hvs, rfl⟩

/-- A successful `type6_from_slice` is unchanged by appending bytes. -/
theorem type6FromSlice_append {xs ys : List Nat} {ht : HeaderType}
    (h : HeaderType.type6FromSlice xs = some ht) :
    HeaderType.type6FromSlice (xs ++ ys) = some ht := by
  unfold HeaderType.type6FromSlice at h ⊢
  simp only [Option.bind_eq_bind, Option.bind_eq_some, Option.pure_def,
    Option.some.injEq] at h ⊢
  obtain ⟨t, h1, a, h2, r, h3, h⟩ := h
  refine ⟨t, by rw [readLE_append (readLE_some_iff.mp h1).1]; exact h1,
    a, by rw [readLE_append (readLE_some_iff.mp h2).1]; exact h2,
    r, by rw [readLE_append (readLE_some_iff.mp h3).1]; exact h3, ?_⟩
  split at h
  · next d so cs2 cs3 heq =>
    rw [getSub_append (getSub_some_le heq), heq]
    simp only [Option.bind_eq_bind, Option.bind_eq_some, Option.pure_def,
      Option.some.injEq] at h ⊢
    obtain ⟨cs, hcs, rfl⟩ := h
    exact ⟨cs, mapM_readLE_append _ _ hcs, rfl⟩
  · exact absurd h (by simp)

/-- A successful `HeaderType::from_slice` is unchanged by appending bytes. -/
theorem headerType_fromSlice_append {code : Nat} {xs ys : List Nat}
    {ht : HeaderType} (h : HeaderType.fromSlice code xs = .ok ht) :
    HeaderType.fromSlice code (xs ++ ys) = .ok ht := by
  unfold HeaderType.fromSlice at h ⊢
  split at h
  · exact h
  · exact h
  · cases h2 : HeaderType.type2FromSlice xs with
    | none => rw [h2] at h; exact absurd h (by simp)
    | some ht' => rw [h2] at h; rw [type2FromSlice_append h2]; exact h
  · cases h3 : HeaderType.type3FromSlice xs with
    | none => rw [h3] at h; exact absurd h (by simp)
    | some ht' => rw [h3] at h; rw [type3FromSlice_append h3]; exact h
  · cases h4 : HeaderType.type4FromSlice xs with
    | none => rw [h4] at h; exact absurd h (by simp)
    | some ht' => rw [h4] at h; rw [type4FromSlice_append h4]; exact h
  · cases h5 : HeaderType.type5FromSlice xs with
    | none => rw [h5] at h; exact absurd h (by simp)
    | some ht' => rw [h5] at h; rw [type5FromSlice_append h5]; exact h
  · cases h6 : HeaderType.type6FromSlice xs with
    | none => rw [h6] at h; exact absurd h (by simp)
    | some ht' => rw [h6] at h; rw [type6FromSlice_append h6]; exact h
  · exact absurd h (by simp)

/-- A successful `Header::from_slice` is unchanged by appending bytes: all
reads of a successful parse stay within the header, which the success itself
places inside `xs`. -/
theorem header_fromSlice_append {xs ys : List Nat} {h : Header}
    (hok : Header.fromSlice xs = .ok (some h)) :
    Header.fromSlice (xs ++ ys) = .ok (some h) := by
  obtain ⟨hv, hrs, hht⟩ := header_fromSlice_parts hok
  unfold Header.fromSlice
  rw [version_fromSlice_append hv]
  dsimp only
  rw [recordSize_fromSlice_append hrs]
  dsimp only
  rw [headerType_fromSlice_append hht]

/-- Every header is at least 8 bytes. -/
theorem headerSize_ge_8 (h : Header) : 8 ≤ h.headerSize := by
  cases h with
  | mk v sz ht => cases ht <;> simp [Header.headerSize] <;> omega

/-- The bounds recorded by a successful batch of completion-status reads. -/
theorem mapM_readLE_bound {s : List Nat} :
    ∀ (l : List Nat) (res : List Nat),
      l.mapM (fun d => readLE s (28 + d * 4) 4) = some res →
      ∀ d ∈ l, 28 + d * 4 + 4 ≤ s.length := by
  intro l
  induction l with
  | nil => intro res _ d hd; simp at hd
  | cons x rest ih =>
    intro res h d hd
    rw [List.mapM_cons] at h
    simp only [Option.bind_eq_bind, Option.bind_eq_some, Option.pure_def,
      Option.some.injEq] at h
    obtain ⟨v, hv, vs, hvs, rfl⟩ := h
    rcases List.mem_cons.mp hd with rfl | hd'
    · exact (readLE_some_iff.mp hv).1
    · exact ih vs hvs d hd'

/-- A successfully parsed header lies entirely within the slice it was
parsed from. -/
theorem headerSize_le_of_ok {s : List Nat} {h : Header}
    (hok : Header.fromSlice s = .ok (some h)) : h.headerSize ≤ s.length := by
  obtain ⟨hv, hrs, hht⟩ := header_fromSlice_parts hok
  have h8 : 8 ≤ s.length := by
    unfold RecordSize.fromSlice at hrs
    cases h4 : readLE s 4 2 with
    | none => rw [h4] at hrs; exact absurd hrs (by simp)
    | some rs =>
      cases h6 : readLE s 6 2 with
      | none => rw [h4, h6] at hrs; exact absurd hrs (by simp)
      | some ers =>
        have := (readLE_some_iff.mp h6).1
        omega
  unfold HeaderType.fromSlice at hht
  split at hht
  · injection hht with hht
    simpa [Header.headerSize, ← hht] using h8
  · injection hht with hht
    simpa [Header.headerSize, ← hht] using h8
  · cases h2 : HeaderType.type2FromSlice s with
    | none => rw [h2] at hht; exact absurd hht (by simp)
    | some ht' =>
      rw [h2] at hht
      injection hht with hht
      unfold HeaderType.type2FromSlice at h2
      simp only [Option.bind_eq_bind, Option.bind_eq_some, Option.pure_def,
        Option.some.injEq] at h2
      obtain ⟨t, -, a, -, r, hr, rfl⟩ := h2
      have := (readLE_some_iff.mp hr).1
      simp only [Header.headerSize, ← hht]
      omega
  · cases h3 : HeaderType.type3FromSlice s with
    | none => rw [h3] at hht; exact absurd hht (by simp)
    | some ht' =>
      rw [h3] at hht
      injection hht with hht
      unfold HeaderType.type3FromSlice at h3
      simp only [Option.bind_eq_bind, Option.bind_eq_some, Option.pure_def,
        Option.some.injEq] at h3
      obtain ⟨t, -, a, -, r, -, cs, hcs, rfl⟩ := h3
      have := (readLE_some_iff.mp hcs).1
      simp only [Header.headerSize, ← hht]
      omega
  · cases h4 : HeaderType.type4FromSlice s with
    | none => rw [h4] at hht; exact absurd hht (by simp)
    | some ht' =>
      rw [h4] at hht
      injection hht with hht
      unfold HeaderType.type4FromSlice at h4
      simp only [Option.bind_eq_bind, Option.bind_eq_some, Option.pure_def,
        Option.some.injEq] at h4
      obtain ⟨t, -, a, -, r, -, w, -, m, hm, rfl⟩ := h4
      have := (readLE_some_iff.mp hm).1
      simp only [Header.headerSize, ← hht]
      omega
  · cases h5 : HeaderType.type5FromSlice s with
    | none => rw [h5] at hht; exact absurd hht (by simp)
    | some ht' =>
      rw [h5] at hht
      injection hht with hht
      unfold HeaderType.type5FromSlice at h5
      simp only [Option.bind_eq_bind, Option.bind_eq_some, Option.pure_def,
        Option.some.injEq] at h5
      obtain ⟨t, -, a, -, r, -, cs, -, es, hes, rfl⟩ := h5
      have := (readLE_some_iff.mp hes).1
      simp only [Header.headerSize, ← hht]
      omega
  · cases h6 : HeaderType.type6FromSlice s with
    | none => rw [h6] at hht; exact absurd hht (by simp)
    | some ht' =>
      rw [h6] at hht
      injection hht with hht
      unfold HeaderType.type6FromSlice at h6
      simp only [Option.bind_eq_bind, Option.bind_eq_some, Option.pure_def,
        Option.some.injEq] at h6
      obtain ⟨t, -, a, -, r, -, h6⟩ := h6
      split at h6
      · next d so cs2 cs3 heq =>
        simp only [Option.bind_eq_bind, Option.bind_eq_some, Option.pure_def,
          Option.some.injEq] at h6
        obtain ⟨cs, hcs, rfl⟩ := h6
        have h28 : 28 ≤ s.length := getSub_some_le heq
        simp only [Header.headerSize, ← hht]
        by_cases hz : (cs2 + 256 * cs3) &&& 0x7F = 0
        · omega
        · have hmem : ((cs2 + 256 * cs3) &&& 0x7F) - 1
              ∈ List.range ((cs2 + 256 * cs3) &&& 0x7F) :=
            List.mem_range.mpr (by omega)
          have := mapM_readLE_bound _ _ hcs _ hmem
          omega
      · exact absurd h6 (by simp)
  · exact absurd hht (by simp)

/-- A successful header parse implies a positive record size whenever the
record's buffer is exactly its computed size (since the header alone already
needs 8 bytes, this is used with `data.length = recordSize`). -/
theorem regionLoop_reparse {bytes : List Nat} :
    ∀ (recs : List Record) (cursor : Nat) (acc : List Record) (fuel : Nat),
      (∀ r ∈ recs, Header.fromSlice r.data = .ok (some r.header) ∧
        r.data.length = r.header.recordSize) →
      bytes.drop cursor = (recs.map Record.data).flatten →
      bytes.length = cursor + ((recs.map Record.data).flatten).length →
      bytes.length - cursor < fuel →
      regionLoop bytes fuel cursor acc = .ok (acc ++ recs) := by
  intro recs
  induction recs with
  | nil =>
    intro cursor acc fuel _ hdrop hlen hfuel
    cases fuel with
    | zero => simp [regionLoop]
    | succ n =>
      unfold regionLoop
      rw [if_neg (by simp at hlen; omega)]
      simp
  | cons r rest ih =>
    intro cursor acc fuel hall hdrop hlen hfuel
    have hr := hall r (by simp)
    have hhdr : Header.fromSlice r.data = .ok (some r.header) := hr.1
    have hdata : r.data.length = r.header.recordSize := hr.2
    have hhs : r.header.headerSize ≤ r.data.length := headerSize_le_of_ok hhdr
    have hge8 : 8 ≤ r.header.headerSize := headerSize_ge_8 r.header
    have hflat : (( (r :: rest).map Record.data).flatten)
        = r.data ++ ((rest.map Record.data).flatten) := by simp
    rw [hflat] at hdrop hlen
    have hrs_pos : 0 < r.header.recordSize := by omega
    have hcur : cursor < bytes.length := by
      simp only [List.length_append] at hlen
      omega
    cases fuel with
    | zero => omega
    | succ n =>
      unfold regionLoop
      rw [if_pos hcur, hdrop, header_fromSlice_append hhdr]
      dsimp only
      rw [if_neg (by omega)]
      have hmin : min (cursor + r.header.recordSize) bytes.length
          = cursor + r.header.recordSize := by
        simp only [List.length_append] at hlen
        exact Nat.min_eq_left (by omega)
      rw [hmin]
      have htake : (r.data ++ (rest.map Record.data).flatten).take
          (cursor + r.header.recordSize - cursor) = r.data := by
        rw [show cursor + r.header.recordSize - cursor = r.header.recordSize by omega]
        exact List.take_left' hdata
      rw [htake]
      have hdrop' : bytes.drop (cursor + r.header.recordSize)
          = ((rest.map Record.data).flatten) := by
        have h1 : bytes.drop (cursor + r.header.recordSize)
            = (bytes.drop cursor).drop r.header.recordSize := by
          rw [List.drop_drop]
          try (congr 1; omega)
        rw [h1, hdrop, List.drop_left' hdata]
      have hlen' : bytes.length
          = cursor + r.header.recordSize + ((rest.map Record.data).flatten).length := by
        simp only [List.length_append] at hlen
        omega
      have happ : acc ++ r :: rest = (acc ++ [⟨r.header, r.data⟩]) ++ rest := by
        simp
      rw [happ]
      exact ih (cursor + r.header.recordSize) (acc ++ [⟨r.header, r.data⟩]) n
        (fun x hx => hall x (by simp [hx])) hdrop' hlen' (by omega)

/-- Re-parsing the serialized bytes of a well-formed record list restores it
exactly. -/
theorem region_reparse (recs : List Record)
    (hall : ∀ r ∈ recs, Header.fromSlice r.data = .ok (some r.header) ∧
      r.data.length = r.header.recordSize) :
    Region.fromSlice (Region.toBytes ⟨recs⟩) = .ok ⟨recs⟩ := by
  unfold Region.fromSlice
  have h := @regionLoop_reparse (Region.toBytes ⟨recs⟩) recs 0 []
    ((Region.toBytes ⟨recs⟩).length + 1) hall (by simp [Region.toBytes])
    (by simp [Region.toBytes]) (by omega)
  rw [h]
  rfl

/-- Length of the serialized 0x300-revision entry header. -/
theorem entryPrefixBytes_length (p : List Nat) : (entryPrefixBytes p).length = 72 := by
  simp [entryPrefixBytes, fwErrorRecordGuid, le32Bytes, le16Bytes, le64Bytes]

/-- Length of the serialized Firmware Error Record. -/
theorem ferBytesFor_length (p : List Nat) : (ferBytesFor p).length = 32 + p.length := by
  simp [ferBytesFor, recordIdCrashlog, le64Bytes]
  omega

/-- Length of a serialized Generic Error Data Entry. -/
theorem entryBytesFor_length (p : List Nat) : (entryBytesFor p).length = 104 + p.length := by
  simp only [entryBytesFor, List.length_append, entryPrefixBytes_length, ferBytesFor_length]
  omega

/-- The dummy BERT table header is 48 bytes long. -/
theorem bertDummyBytes_length (n : Nat) : (bertDummyBytes n).length = 48 := by
  simp [bertDummyBytes, le32Bytes, le64Bytes]

/-- A serialized Generic Error Status Block is 20 bytes long. -/
theorem gesbToBytes_length (h : GenericErrorStatusBlock) :
    (GenericErrorStatusBlock.toBytes h).length = 20 := by
  simp [GenericErrorStatusBlock.toBytes, le32Bytes]

/-- `getSub` selecting exactly the suffix after a known prefix. -/
theorem getSub_suffix (xs ys : List Nat) :
    getSub (xs ++ ys) xs.length (xs ++ ys).length = some ys := by
  unfold getSub
  rw [if_pos ⟨by simp, le_refl _⟩]
  congr 1
  rw [List.drop_left]
  exact List.take_of_length_le (by simp)

/-- `getSub` selecting a middle chunk at a known offset. -/
theorem getSub_middle (xs B ys : List Nat) :
    getSub (xs ++ (B ++ ys)) xs.length (xs.length + B.length) = some B := by
  unfold getSub
  rw [if_pos ⟨Nat.le_add_right _ _, by simp only [List.length_append]; omega⟩]
  congr 1
  rw [List.drop_left, Nat.add_sub_cancel_left]
  exact List.take_left B ys

/-- `getSub` up to the end of the slice is `List.drop`. -/
theorem getSub_drop (s : List Nat) (a : Nat) (h : a ≤ s.length) :
    getSub s a s.length = some (s.drop a) := by
  unfold getSub
  rw [if_pos ⟨h, le_refl _⟩]
  congr 1
  exact List.take_of_length_le (by simp)

/-- Parsing the serialized entry header of `Berr::from_crashlog` restores it
with the recomputed `error_data_length`. -/
theorem entryHeader_parse (p rest : List Nat) (hp : 32 + p.length < 2 ^ 32) :
    GenericErrorDataEntryHeader.fromSlice (entryBytesFor p ++ rest)
      = some (entryParsed p).header := by
  simp [GenericErrorDataEntryHeader.fromSlice, entryBytesFor, entryPrefixBytes,
    ferBytesFor, entryParsed, readLE, getSub, leNat, fwErrorRecordGuid,
    recordIdCrashlog, le32Bytes, le16Bytes, le64Bytes, List.replicate]
  omega

/-- Parsing the serialized Firmware Error Record of `Berr::from_crashlog`
restores it. -/
theorem fer_parse (p : List Nat) :
    FirmwareErrorRecord.fromSlice (ferBytesFor p)
      = some ⟨⟨2, 2, List.replicate 6 0, 0, recordIdCrashlog⟩, p⟩ := by
  simp [FirmwareErrorRecord.fromSlice, FirmwareErrorRecordHeader.fromSlice,
    FirmwareErrorRecordHeader.size, ferBytesFor, readLE, getSub, leNat,
    recordIdCrashlog, le64Bytes, List.replicate]

/-- Parsing a serialized Generic Error Data Entry (possibly followed by more
bytes) restores the `entryParsed` value. -/
theorem entry_parse (p rest : List Nat) (hp : 32 + p.length < 2 ^ 32) :
    GenericErrorDataEntry.fromSlice (entryBytesFor p ++ rest)
      = some (entryParsed p) := by
  have hsplit : entryBytesFor p ++ rest
      = entryPrefixBytes p ++ (ferBytesFor p ++ rest) := by
    rw [entryBytesFor, List.append_assoc]
  have hgs : getSub (entryBytesFor p ++ rest) 72 (72 + (32 + p.length))
      = some (ferBytesFor p) := by
    rw [hsplit]
    have h := getSub_middle (entryPrefixBytes p) (ferBytesFor p) rest
    rwa [entryPrefixBytes_length, ferBytesFor_length] at h
  unfold GenericErrorDataEntry.fromSlice
  rw [entryHeader_parse p rest hp]
  simp only [Option.bind_eq_bind, Option.some_bind]
  have hsz : (entryParsed p).header.size = 72 := by
    simp [entryParsed, GenericErrorDataEntryHeader.size]
  have hdl : (entryParsed p).header.errorDataLength = 32 + p.length := rfl
  rw [hsz, hdl, hgs]
  simp only [Option.some_bind]
  have hguid : (entryParsed p).header.sectionGuid = fwErrorRecordGuid := rfl
  rw [hguid]
  unfold CperSection.fromSlice
  rw [if_pos rfl, fer_parse p]
  rfl

/-- `GenericErrorDataEntry::to_bytes` of the entry built by
`Berr::from_crashlog` is exactly `entryBytesFor`. -/
theorem entry_toBytes_eq (p : List Nat) :
    GenericErrorDataEntry.toBytes
      { header := { sectionGuid := fwErrorRecordGuid, revision := 0x300 }
        cperSection := .firmwareErrorRecord
          { header := { errorType := 2, revision := 2,
                        reserved := List.replicate 6 0,
                        recordIdentifier := 0, guid := recordIdCrashlog }
            payload := p } }
      = entryBytesFor p := by
  simp only [GenericErrorDataEntry.toBytes, CperSection.toBytes,
    FirmwareErrorRecord.toBytes, FirmwareErrorRecordHeader.toBytes,
    GenericErrorDataEntryHeader.toBytes]
  simp [entryBytesFor, entryPrefixBytes, ferBytesFor, le16Bytes, le32Bytes,
    le64Bytes, recordIdCrashlog, List.length_append]
  omega

/-- Every serialized entry is at least as long as its count in the flattened
payload. -/
theorem len_le_flatten (ps : List (List Nat)) :
    ps.length ≤ ((ps.map entryBytesFor).flatten).length := by
  induction ps with
  | nil => simp
  | cons p rest ih =>
    simp only [List.map_cons, List.flatten_cons, List.length_append,
      List.length_cons, entryBytesFor_length]
    omega

/-- A member's serialized entry is no longer than the flattened payload. -/
theorem mem_le_flatten (ps : List (List Nat)) (p : List Nat) (hp : p ∈ ps) :
    (entryBytesFor p).length ≤ ((ps.map entryBytesFor).flatten).length := by
  induction ps with
  | nil => simp at hp
  | cons q rest ih =>
    simp only [List.map_cons, List.flatten_cons, List.length_append]
    rcases List.mem_cons.mp hp with rfl | hp'
    · exact Nat.le_add_right _ _
    · have := ih hp'
      omega

/-- Parsing a serialized Generic Error Status Block (followed by the entry
payload) restores its fields when the data length fits in a `u32`. -/
theorem gesb_parse (L : Nat) (rest : List Nat) (hL : L < 2 ^ 32) :
    GenericErrorStatusBlock.fromSlice
        (GenericErrorStatusBlock.toBytes ⟨0, 0, 0, L, 0⟩ ++ rest)
      = some ⟨0, 0, 0, L, 0⟩ := by
  simp [GenericErrorStatusBlock.fromSlice, GenericErrorStatusBlock.toBytes,
    readLE, getSub, leNat, le32Bytes]
  omega

/-- The entry loop of `Berr::from_slice` over a flattened list of serialized
entries recovers the `entryParsed` values in order. -/
theorem entriesLoop_parses (s : List Nat) :
    ∀ (ps : List (List Nat)) (ptr : Nat) (acc : List GenericErrorDataEntry)
      (fuel : Nat),
      (∀ p ∈ ps, 32 + p.length < 2 ^ 32) →
      s.drop ptr = (ps.map entryBytesFor).flatten →
      s.length = ptr + ((ps.map entryBytesFor).flatten).length →
      ps ≠ [] →
      ps.length ≤ fuel →
      Berr.entriesLoop s s.length fuel ptr acc
        = some (acc ++ ps.map entryParsed) := by
  intro ps
  induction ps with
  | nil => intro _ _ _ _ _ _ hne _; exact absurd rfl hne
  | cons p rest ih =>
    intro ptr acc fuel hb hdrop hlen hne hfuel
    cases fuel with
    | zero => simp only [List.length_cons] at hfuel; omega
    | succ n =>
      have hptr : ptr ≤ s.length := by rw [hlen]; exact Nat.le_add_right _ _
      have hflat : ((p :: rest).map entryBytesFor).flatten
          = entryBytesFor p ++ (rest.map entryBytesFor).flatten := by simp
      unfold Berr.entriesLoop
      rw [getSub_drop s ptr hptr]
      simp only [Option.bind_eq_bind, Option.some_bind]
      rw [hdrop, hflat, entry_parse p _ (hb p (by simp))]
      dsimp only
      have hsize : (entryParsed p).size = 104 + p.length := by
        simp [GenericErrorDataEntry.size, entryParsed,
          GenericErrorDataEntryHeader.size]
        omega
      rw [hsize]
      cases rest with
      | nil =>
        rw [if_pos ?_]
        · simp
        · rw [hlen, hflat]
          simp only [List.map_nil, List.flatten_nil, List.append_nil,
            entryBytesFor_length]
          omega
      | cons q qs =>
        rw [if_neg ?_]
        swap
        · rw [hlen, hflat]
          simp only [List.length_append, entryBytesFor_length]
          have hpos : 0 < (((q :: qs).map entryBytesFor).flatten).length := by
            simp only [List.map_cons, List.flatten_cons, List.length_append,
              entryBytesFor_length]
            omega
          omega
        have hdrop' : s.drop (ptr + (104 + p.length))
            = (((q :: qs).map entryBytesFor).flatten) := by
          have h1 : s.drop (ptr + (104 + p.length))
              = (s.drop ptr).drop (104 + p.length) := by
            rw [List.drop_drop]
            try (congr 1; omega)
          rw [h1, hdrop, hflat]
          exact List.drop_left' (by rw [entryBytesFor_length])
        have hlen' : s.length = (ptr + (104 + p.length))
            + ((((q :: qs).map entryBytesFor).flatten)).length := by
          rw [hlen, hflat]
          simp only [List.length_append, entryBytesFor_length]
          omega
        rw [ih (ptr + (104 + p.length)) (acc ++ [entryParsed p]) n
          (fun x hx => hb x (by simp [hx])) hdrop' hlen' (by simp)
          (by simp only [List.length_cons] at hfuel ⊢; omega)]
        simp

/-- `Berr::to_bytes` of `Berr::from_crashlog cl` in closed form. -/
theorem toBerr_toBytes (cl : CrashLog) :
    (CrashLog.toBerr cl).toBytes
      = GenericErrorStatusBlock.toBytes
          ⟨0, 0, 0,
            (((cl.regions.map Region.toBytes).map entryBytesFor).flatten).length, 0⟩
        ++ ((cl.regions.map Region.toBytes).map entryBytesFor).flatten := by
  have hmap : (CrashLog.toBerr cl).entries.map GenericErrorDataEntry.toBytes
      = (cl.regions.map Region.toBytes).map entryBytesFor := by
    unfold CrashLog.toBerr
    dsimp only
    rw [List.map_map, List.map_map]
    apply List.map_congr_left
    intro reg _
    exact entry_toBytes_eq (Region.toBytes reg)
  unfold Berr.toBytes
  dsimp only
  rw [hmap]
  rfl

/-- `Berr::from_slice` of the serialized BERR payload restores the parsed
entries. -/
theorem berr_reparse (ps : List (List Nat)) (hne : ps ≠ [])
    (hsz : ((ps.map entryBytesFor).flatten).length < 2 ^ 32) :
    Berr.fromSlice
        (GenericErrorStatusBlock.toBytes
            ⟨0, 0, 0, ((ps.map entryBytesFor).flatten).length, 0⟩
          ++ (ps.map entryBytesFor).flatten)
      = some ⟨⟨0, 0, 0, ((ps.map entryBytesFor).flatten).length, 0⟩,
          ps.map entryParsed⟩ := by
  have hb : ∀ p ∈ ps, 32 + p.length < 2 ^ 32 := by
    intro p hp
    have h1 := mem_le_flatten ps p hp
    rw [entryBytesFor_length] at h1
    omega
  unfold Berr.fromSlice
  rw [gesb_parse _ _ hsz]
  simp only [Option.bind_eq_bind, Option.some_bind]
  have hs20 : (GenericErrorStatusBlock.toBytes
      (⟨0, 0, 0, ((ps.map entryBytesFor).flatten).length, 0⟩
        : GenericErrorStatusBlock)).length = 20 := gesbToBytes_length _
  have hE : GenericErrorStatusBlock.size
        (⟨0, 0, 0, ((ps.map entryBytesFor).flatten).length, 0⟩
          : GenericErrorStatusBlock)
        + ((ps.map entryBytesFor).flatten).length
      = (GenericErrorStatusBlock.toBytes
          (⟨0, 0, 0, ((ps.map entryBytesFor).flatten).length, 0⟩
            : GenericErrorStatusBlock)
        ++ (ps.map entryBytesFor).flatten).length := by
    simp only [List.length_append, hs20]
    rfl
  rw [hE]
  rw [entriesLoop_parses _ ps _ [] _ hb ?_ ?_ hne ?_]
  · rfl
  · rw [show GenericErrorStatusBlock.size
        (⟨0, 0, 0, ((ps.map entryBytesFor).flatten).length, 0⟩
          : GenericErrorStatusBlock) = 20 from rfl]
    rw [← hs20]
    exact List.drop_left _ _
  · simp only [List.length_append, hs20]
    rfl
  · calc ps.length ≤ ((ps.map entryBytesFor).flatten).length := len_le_flatten ps
      _ ≤ _ + 1 := by simp only [List.length_append, hs20]; omega

/-- `Region::from_cper_section` of a parsed entry restores the region whose
records are well formed. -/
theorem fromCperSection_entryParsed (reg : Region)
    (hrec : ∀ r ∈ reg.records, Header.fromSlice r.data = .ok (some r.header) ∧
      r.data.length = r.header.recordSize) :
    Region.fromCperSection (entryParsed (Region.toBytes reg)).cperSection
      = some reg := by
  cases reg with
  | mk recs =>
    simp only [entryParsed, Region.fromCperSection]
    rw [region_reparse recs hrec]
    rfl

/-- Filtering the parsed entries through `Region::from_cper_section` restores
the region list. -/
theorem filterMap_entryParsed (regs : List Region)
    (hr : ∀ reg ∈ regs, ∀ r ∈ reg.records,
      Header.fromSlice r.data = .ok (some r.header) ∧
      r.data.length = r.header.recordSize) :
    (regs.map (fun reg => entryParsed (Region.toBytes reg))).filterMap
      (fun entry => Region.fromCperSection entry.cperSection) = regs := by
  induction regs with
  | nil => rfl
  | cons reg rest ih =>
    simp only [List.map_cons, List.filterMap_cons]
    rw [fromCperSection_entryParsed reg (hr reg (by simp))]
    rw [ih (fun x hx => hr x (by simp [hx]))]

/-- A region none of whose records is a Box record contributes no nested
regions. -/
theorem boxRegions_eq_nil (reg : Region)
    (h : ∀ r ∈ reg.records, r.header.version.recordType ≠ recordTypeBOX) :
    CrashLog.boxRegions reg = [] := by
  unfold CrashLog.boxRegions
  rw [List.filterMap_eq_nil]
  intro r hr
  rw [if_neg (h r hr)]

/-- The queue loop of `CrashLog::from_regions` is the identity on queues
without Box records. -/
theorem fromRegionsAux_noBox :
    ∀ (queue acc : List Region) (fuel : Nat),
      (∀ reg ∈ queue, CrashLog.boxRegions reg = []) →
      queue.length < fuel →
      CrashLog.fromRegionsAux fuel queue acc = acc ++ queue := by
  intro queue
  induction queue with
  | nil =>
    intro acc fuel _ hf
    cases fuel with
    | zero => omega
    | succ n => simp [CrashLog.fromRegionsAux]
  | cons reg rest ih =>
    intro acc fuel hbox hf
    cases fuel with
    | zero => simp only [List.length_cons] at hf; omega
    | succ n =>
      unfold CrashLog.fromRegionsAux
      rw [hbox reg (by simp)]
      simp only [List.reverse_nil, List.nil_append]
      rw [ih (acc ++ [reg]) n (fun x hx => hbox x (by simp [hx]))
        (by simp only [List.length_cons] at hf; omega)]
      simp

/-- `CrashLog::from_regions` on a nonempty Box-free region list succeeds and
returns the list unchanged. -/
theorem fromRegions_noBox (regs : List Region) (hne : regs ≠ [])
    (hbox : ∀ reg ∈ regs, CrashLog.boxRegions reg = []) :
    CrashLog.fromRegions regs = .ok ⟨regs⟩ := by
  unfold CrashLog.fromRegions
  rw [fromRegionsAux_noBox regs [] _ hbox ?_]
  · simp only [List.nil_append]
    rw [if_neg ?_]
    cases regs with
    | nil => exact absurd rfl hne
    | cons r rs => simp
  · unfold CrashLog.fromRegionsFuel
    omega

/-- **C1, amended.** For every CrashLog whose regions are nonempty, whose
records all re-parse to their own headers, occupy exactly their computed
record size, and are not Box records, and whose serialized BERR payload fits
in a `u32`, `CrashLog::to_bytes` followed by `CrashLog::from_slice` restores
the CrashLog exactly — in particular with the same number of regions and
byte-identical region payloads. -/
theorem c1_amended (cl : CrashLog)
    (hne : cl.regions ≠ [])
    (hrec : ∀ reg ∈ cl.regions, ∀ r ∈ reg.records,
      Header.fromSlice r.data = .ok (some r.header) ∧
      r.data.length = r.header.recordSize ∧
      r.header.version.recordType ≠ recordTypeBOX)
    (hsz : (((cl.regions.map Region.toBytes).map entryBytesFor).flatten).length
      < 2 ^ 32) :
    CrashLog.fromSlice (CrashLog.toBytes cl) = .ok cl := by
  obtain ⟨regs⟩ := cl
  simp only at hne hrec hsz
  unfold CrashLog.toBytes
  dsimp only
  unfold CrashLog.fromSlice
  have hmagic : (bertDummyBytes ((CrashLog.toBerr ⟨regs⟩).toBytes).length
      ++ (CrashLog.toBerr ⟨regs⟩).toBytes).take 4 = [0x42, 0x45, 0x52, 0x54] := by
    simp [bertDummyBytes]
  have hfile : Berr.fromBertFile (bertDummyBytes ((CrashLog.toBerr ⟨regs⟩).toBytes).length
      ++ (CrashLog.toBerr ⟨regs⟩).toBytes)
      = some ⟨⟨0, 0, 0,
          (((regs.map Region.toBytes).map entryBytesFor).flatten).length, 0⟩,
        (regs.map Region.toBytes).map entryParsed⟩ := by
    unfold Berr.fromBertFile
    rw [if_neg (by rw [hmagic]; decide), if_pos hmagic]
    have h48 := getSub_suffix (bertDummyBytes ((CrashLog.toBerr ⟨regs⟩).toBytes).length)
      ((CrashLog.toBerr ⟨regs⟩).toBytes)
    rw [bertDummyBytes_length] at h48
    rw [h48]
    simp only [Option.bind_eq_bind, Option.some_bind]
    rw [toBerr_toBytes]
    exact berr_reparse (regs.map Region.toBytes)
      (by simpa using hne) hsz
  rw [hfile]
  dsimp only
  unfold CrashLog.fromBerr
  dsimp only
  rw [List.map_map]
  rw [show (entryParsed ∘ Region.toBytes) = fun reg => entryParsed (Region.toBytes reg)
    from rfl]
  rw [filterMap_entryParsed regs
    (fun reg hreg r hr => ⟨(hrec reg hreg r hr).1, (hrec reg hreg r hr).2.1⟩)]
  exact fromRegions_noBox regs hne
    (fun reg hreg => boxRegions_eq_nil reg
      (fun r hr => (hrec reg hreg r hr).2.2))

set_option maxRecDepth 40000 in
/-- **C1, counterexample.** Two CrashLogs built by successfully parsing valid
BERT blobs fail the round-trip: the CrashLog parsed from a blob whose region
holds a record clamped to 5 bytes (an ECORE record whose record-size field is
5) has one region, but serializing it and re-parsing returns
`Err(InvalidCrashLog)` rather than a CrashLog with one region; and the
CrashLog parsed from a blob whose region holds a Box record has two regions
(the Box payload is unwrapped once), but serializing it and re-parsing yields
three regions (the Box payload is unwrapped again). -/
theorem c1_counterexample :
    ((CrashLog.fromSlice (CrashLog.toBytes shortPayloadCrashLog)).toOption.map
        (fun cl => (cl.regions.length,
          CrashLog.fromSlice (CrashLog.toBytes cl)))
      = some (1, .error .InvalidCrashLog))
    ∧ ((CrashLog.fromSlice (CrashLog.toBytes boxPayloadCrashLog)).toOption.map
        (fun cl => (cl.regions.length,
          (CrashLog.fromSlice (CrashLog.toBytes cl)).toOption.map
            (fun c2 => c2.regions.length)))
      = some (2, some 3)) := by decide

set_option maxRecDepth 40000 in
/-- Witness for **C1**: the single-region single-ECORE-record CrashLog
satisfies the amended hypotheses and round-trips exactly. -/
theorem c1_amended_witness :
    goodCrashLog.regions ≠ [] ∧
    CrashLog.fromSlice (CrashLog.toBytes goodCrashLog) = .ok goodCrashLog :=
  ⟨by decide, c1_amended goodCrashLog (by decide) (by decide) (by decide)⟩

end CrashLogProof
